import Mathlib

/-!
# AudioEncoderNative: a shallow embedding of `audio_encoder_native.cpp`

The C++ bridge forwards PCM buffers to a Media Foundation sink writer.  Its
collaborators (the resampler MFT, the sink writer, the Media Foundation object
factories) are black boxes: every call whose `HRESULT` the source inspects takes
its result from an explicit outcome record (`CreateEnv`, `WriteEnv`), and every
call made on a collaborator is appended to a call log, in program order.

Conventions
* `int32_t` / `int64_t` values are `ℤ`, `uint32_t` / `DWORD` values are `ℕ`;
  conversions and products that the C++ performs in 32 bits are written with
  `wrapU32` / `wrapI32`.
* `double` is IEEE-754 binary64 with round-to-nearest, ties-to-even, one rounding
  per operation.  A finite double is the rational it denotes, `none` is a
  non-finite double (an infinity or a NaN).
* COM pointers are `Bool`: `true` for a live object, `false` for `nullptr`.
* `std::mutex writeMutex` is not modelled: the embedding is sequential.
-/

namespace AudioEncoderNative

/-! ## Machine integers and status codes -/

/-- Conversion of an integer to `uint32_t` (reduction modulo `2^32`). -/
def wrapU32 (x : ℤ) : ℕ := (x % 2 ^ 32).toNat

/-- Reduction in two-complement form of an integer to the `int32_t` range. -/
def wrapI32 (x : ℤ) : ℤ := (x + 2 ^ 31) % 2 ^ 32 - 2 ^ 31

/-- An `HRESULT` is a signed 32-bit status; only its sign is ever inspected. -/
abbrev HRESULT := ℤ

/-- The `FAILED(hr)` test of the Windows headers. -/
def FAILED (hr : HRESULT) : Bool := decide (hr < 0)

/-- The `SUCCEEDED(hr)` test of the Windows headers. -/
def SUCCEEDED (hr : HRESULT) : Bool := decide (0 ≤ hr)

/-- Status `AUDIO_ENCODER_SUCCESS` of `audio_encoder_native.h`. -/
def AUDIO_ENCODER_SUCCESS : ℤ := 0

/-- Status `AUDIO_ENCODER_ERROR_WRITE` of `audio_encoder_native.h`. -/
def AUDIO_ENCODER_ERROR_WRITE : ℤ := -2

/-- Status `AUDIO_ENCODER_ERROR_INVALID` of `audio_encoder_native.h`. -/
def AUDIO_ENCODER_ERROR_INVALID : ℤ := -4

/-! ## IEEE-754 binary64 arithmetic on rationals -/

/-- Loop of `ilog2`: halve until the value drops below two. -/
def ilog2Aux : ℕ → ℕ → ℕ
  | 0, _ => 0
  | fuel + 1, n => if 2 ≤ n then ilog2Aux fuel (n / 2) + 1 else 0

/-- Position of the leading bit of `n`, that is `⌊log₂ n⌋` for `n ≥ 1`. -/
def ilog2 (n : ℕ) : ℕ := ilog2Aux n n

/-- The binary exponent of a rational: `2^(binade q) ≤ |q| < 2^(binade q + 1)` for `q ≠ 0`. -/
def binade (q : ℚ) : ℤ :=
  let k : ℤ := (ilog2 q.num.natAbs : ℤ) - (ilog2 q.den : ℤ)
  if (2 : ℚ) ^ k ≤ |q| then k else k - 1

/-- Rounding of a rational to the nearest binary64 value, ties to even, with the
exponent unbounded above: 53 significant bits, and the fixed quantum `2^(-1074)`
in the subnormal range. -/
def roundNE (q : ℚ) : ℚ :=
  let e : ℤ := max (binade q - 52) (-1074)
  let s : ℚ := q / (2 : ℚ) ^ e
  let f : ℤ := ⌊s⌋
  let r : ℚ := s - f
  let m : ℤ := if r < 1 / 2 then f else if 1 / 2 < r then f + 1 else if f % 2 = 0 then f else f + 1
  (m : ℚ) * (2 : ℚ) ^ e

/-- A `double`: `some q` is the finite double denoting `q`, `none` is an infinity or a NaN. -/
abbrev F64 := Option ℚ

/-- The double nearest to a rational; overflow past the largest finite double gives an infinity. -/
def F64.round (q : ℚ) : F64 :=
  if |roundNE q| < (2 : ℚ) ^ (1024 : ℕ) then some (roundNE q) else none

/-- Conversion of a 32-bit integer (`int32_t` or `uint32_t`) to `double`: always finite. -/
def F64.ofInt32 (i : ℤ) : ℚ := roundNE (i : ℚ)

/-- Quotient `a / b` of a double by a finite double `b`.  Division by zero yields an
infinity or a NaN, and a non-finite `a` stays non-finite. -/
def F64.div (a : F64) (b : ℚ) : F64 :=
  match a with
  | none => none
  | some x => if b = 0 then none else F64.round (x / b)

/-- Product `a * b` of a double by a finite double `b`; a non-finite `a` stays non-finite. -/
def F64.mul (a : F64) (b : ℚ) : F64 :=
  match a with
  | none => none
  | some x => F64.round (x * b)

/-- Truncation toward zero of a rational. -/
def truncToInt (x : ℚ) : ℤ := if 0 ≤ x then ⌊x⌋ else ⌈x⌉

/-- The conversion `(int64_t)x`: truncation toward zero.  It is undefined (`none`) for a
non-finite `x` and for a value outside the `int64_t` range. -/
def F64.toInt64 (x : F64) : Option ℤ :=
  match x with
  | none => none
  | some q =>
    if -(2 : ℤ) ^ (63 : ℕ) ≤ truncToInt q ∧ truncToInt q < (2 : ℤ) ^ (63 : ℕ) then some (truncToInt q)
    else none

/-! ## Media Foundation objects -/

/-- Values given to `MF_MT_SUBTYPE`. -/
inductive AudioSubtype
  | MFAudioFormat_Float
  | MFAudioFormat_PCM
deriving DecidableEq

/-- Values given to `MF_MT_MAJOR_TYPE`. -/
inductive MajorType
  | MFMediaType_Audio
deriving DecidableEq

/-- The attributes stored in an `IMFMediaType` by the seven setter calls of the source. -/
structure MediaType where
  majorType : MajorType
  subtype : AudioSubtype
  samplesPerSecond : ℕ
  numChannels : ℕ
  bitsPerSample : ℕ
  blockAlignment : ℕ
  avgBytesPerSecond : ℕ
deriving DecidableEq

/-- Messages sent to the resampler with `ProcessMessage`. -/
inductive MftMessage
  | MFT_MESSAGE_NOTIFY_BEGIN_STREAMING
  | MFT_MESSAGE_NOTIFY_START_OF_STREAM
  | MFT_MESSAGE_NOTIFY_END_OF_STREAM
deriving DecidableEq

/-- An `IMFMediaBuffer` from `MFCreateMemoryBuffer`: `bytes = none` while the
memory has never been written. -/
structure MediaBuffer where
  maxLength : ℕ
  bytes : Option (List ℕ)
  currentLength : ℕ
deriving DecidableEq

/-- An `IMFSample` as it is when handed to the sink.  `sampleDuration = none` means
that the stored value comes from an undefined `double` to `int64_t` conversion. -/
structure Sample where
  buffers : List MediaBuffer
  sampleTime : ℤ
  sampleDuration : Option ℤ
deriving DecidableEq

/-- Calls made on the collaborators, with the `HRESULT` obtained where the source reads it. -/
inductive Call
  | CoCreateInstance_Resampler (hr : HRESULT)
  | MFCreateMediaType (hr : HRESULT)
  | MFCreateSample (hr : HRESULT)
  | MFCreateMemoryBuffer (size : ℕ) (hr : HRESULT)
  | Resampler_SetInputType (t : MediaType) (hr : HRESULT)
  | Resampler_SetOutputType (t : MediaType) (hr : HRESULT)
  | Resampler_ProcessMessage (m : MftMessage)
  | Resampler_Release
  | ResamplerInputSample_Release
  | SinkWriter_SetInputMediaType (sink : ℕ) (streamIndex : ℕ) (t : MediaType) (hr : HRESULT)
  | SinkWriter_WriteSample (sink : ℕ) (streamIndex : ℕ) (s : Sample) (hr : HRESULT)
  | OutputDebugStringA (msg : String)
deriving DecidableEq

/-- Calls whose receiver is the downstream sink writer. -/
def Call.onSink : Call → Bool
  | .SinkWriter_SetInputMediaType _ _ _ _ => true
  | .SinkWriter_WriteSample _ _ _ _ => true
  | _ => false

/-- Calls whose receiver is the resampler MFT. -/
def Call.onResampler : Call → Bool
  | .Resampler_SetInputType _ _ => true
  | .Resampler_SetOutputType _ _ => true
  | .Resampler_ProcessMessage _ => true
  | .Resampler_Release => true
  | _ => false

/-- Calls on a collaborator proper: everything except the debugger output channel. -/
def Call.onCollaborator : Call → Bool
  | .OutputDebugStringA _ => false
  | _ => true

/-! ## The encoder handle -/

/-- The `struct AudioEncoder` of the source (without `writeMutex`). -/
structure AudioEncoder where
  resampler : Bool
  sinkWriter : ℕ
  streamIndex : ℕ
  resamplerInputSample : Bool
  lastError : String
  initialized : Bool
  sampleRate : ℤ
  channels : ℤ
  inputIsFloat : ℤ
deriving DecidableEq

/-- Results of the collaborator calls that `audio_encoder_create` inspects, in call order. -/
structure CreateEnv where
  hrCoCreateInstance : HRESULT
  hrCreateInputType : HRESULT
  hrSetInputType : HRESULT
  hrCreateOutputType : HRESULT
  hrSetOutputType : HRESULT
  hrCreateSample : HRESULT
  hrCreateSinkInputType : HRESULT
  hrSetInputMediaType : HRESULT

/-- Results of the collaborator calls that `audio_encoder_write_pcm` makes, in call order. -/
structure WriteEnv where
  hrCreateSample : HRESULT
  hrCreateMemoryBuffer : HRESULT
  hrLock : HRESULT
  hrWriteSample : HRESULT

/-! ## `audio_encoder_create` -/

/-- The resampler input descriptor (`inputType`, source lines 64-72). -/
def inputType (sample_rate channels input_is_float : ℤ) : MediaType :=
  let blockAlign : ℕ := wrapU32 (wrapI32 (channels * (if input_is_float ≠ 0 then 4 else 2)))
  { majorType := .MFMediaType_Audio
    subtype := if input_is_float ≠ 0 then .MFAudioFormat_Float else .MFAudioFormat_PCM
    samplesPerSecond := wrapU32 sample_rate
    numChannels := wrapU32 channels
    bitsPerSample := if input_is_float ≠ 0 then 32 else 16
    blockAlignment := blockAlign
    avgBytesPerSecond := wrapU32 ((wrapU32 sample_rate : ℤ) * (blockAlign : ℤ)) }

/-- The resampler output descriptor (`outputType`, source lines 89-97). -/
def outputType (sample_rate channels : ℤ) : MediaType :=
  let blockAlign : ℕ := wrapU32 (wrapI32 (channels * 2))
  { majorType := .MFMediaType_Audio
    subtype := .MFAudioFormat_PCM
    samplesPerSecond := wrapU32 sample_rate
    numChannels := wrapU32 channels
    bitsPerSample := 16
    blockAlignment := blockAlign
    avgBytesPerSecond := wrapU32 ((wrapU32 sample_rate : ℤ) * (blockAlign : ℤ)) }

/-- The descriptor declared to the sink writer (`sinkInputType`, source lines 127-135). -/
def sinkInputType (sample_rate channels : ℤ) : MediaType :=
  let blockAlign : ℕ := wrapU32 (wrapI32 (channels * 2))
  { majorType := .MFMediaType_Audio
    subtype := .MFAudioFormat_PCM
    samplesPerSecond := wrapU32 sample_rate
    numChannels := wrapU32 channels
    bitsPerSample := 16
    blockAlignment := blockAlign
    avgBytesPerSecond := wrapU32 ((wrapU32 sample_rate : ℤ) * (blockAlign : ℤ)) }

/-- The function `audio_encoder_create`: the handle it returns and the calls it makes.
The constructor call `new AudioEncoder()` leaves `lastError` empty. -/
def audio_encoder_create (env : CreateEnv) (sink_writer : ℕ) (stream_index : ℕ)
    (sample_rate channels input_is_float : ℤ) : AudioEncoder × List Call :=
  let encoder : AudioEncoder :=
    { resampler := false, sinkWriter := sink_writer, streamIndex := stream_index,
      resamplerInputSample := false, lastError := "", initialized := false,
      sampleRate := sample_rate, channels := channels, inputIsFloat := input_is_float }
  let hr₀ := env.hrCoCreateInstance
  let log₀ := [Call.CoCreateInstance_Resampler hr₀]
  if FAILED hr₀ then
    ({ encoder with
        lastError := "CoCreateInstance(CLSID_CResamplerMediaObject) failed: 0x" ++ toString hr₀ },
      log₀)
  else
  let encoder := { encoder with resampler := true }
  -- resampler input type
  let log₁ := log₀ ++ [Call.MFCreateMediaType env.hrCreateInputType]
  let hr₁ := if SUCCEEDED env.hrCreateInputType then env.hrSetInputType else env.hrCreateInputType
  let log₁ := if SUCCEEDED env.hrCreateInputType then
      log₁ ++ [Call.Resampler_SetInputType (inputType sample_rate channels input_is_float)
        env.hrSetInputType]
    else log₁
  if FAILED hr₁ then
    ({ encoder with lastError := "Resampler SetInputType failed: 0x" ++ toString hr₁ }, log₁)
  else
  -- resampler output type
  let log₂ := log₁ ++ [Call.MFCreateMediaType env.hrCreateOutputType]
  let hr₂ := if SUCCEEDED env.hrCreateOutputType then env.hrSetOutputType
    else env.hrCreateOutputType
  let log₂ := if SUCCEEDED env.hrCreateOutputType then
      log₂ ++ [Call.Resampler_SetOutputType (outputType sample_rate channels) env.hrSetOutputType]
    else log₂
  if FAILED hr₂ then
    ({ encoder with lastError := "Resampler SetOutputType failed: 0x" ++ toString hr₂ }, log₂)
  else
  -- start streaming, then the reusable input sample
  let log₃ := log₂ ++
    [Call.Resampler_ProcessMessage .MFT_MESSAGE_NOTIFY_BEGIN_STREAMING,
     Call.Resampler_ProcessMessage .MFT_MESSAGE_NOTIFY_START_OF_STREAM,
     Call.MFCreateSample env.hrCreateSample]
  if FAILED env.hrCreateSample then
    ({ encoder with lastError := "MFCreateSample failed: 0x" ++ toString env.hrCreateSample },
      log₃)
  else
  let encoder := { encoder with resamplerInputSample := true }
  -- input type of the sink writer
  let log₄ := log₃ ++ [Call.MFCreateMediaType env.hrCreateSinkInputType]
  if SUCCEEDED env.hrCreateSinkInputType then
    let log₅ := log₄ ++
      [Call.SinkWriter_SetInputMediaType sink_writer stream_index
        (sinkInputType sample_rate channels) env.hrSetInputMediaType]
    if FAILED env.hrSetInputMediaType then
      ({ encoder with
          lastError := "SinkWriter->SetInputMediaType failed: 0x" ++
            toString env.hrSetInputMediaType },
        log₅)
    else
      ({ encoder with initialized := true },
        log₅ ++ [Call.OutputDebugStringA
          "[NativeEncoder] SetInputMediaType SUCCESS - SinkWriter knows input is PCM16\n"])
  else
    ({ encoder with initialized := true }, log₄)

/-! ## `audio_encoder_write_pcm` -/

/-- The local `bytesPerSample` (source line 198): an `int32_t` product. -/
def bytesPerSample (encoder : AudioEncoder) : ℤ :=
  wrapI32 (encoder.channels * (if encoder.inputIsFloat ≠ 0 then 4 else 2))

/-- The local `duration` (source lines 199-200) for a write of `data_size` bytes. -/
def sampleDuration (encoder : AudioEncoder) (data_size : ℕ) : Option ℤ :=
  let samplesCount : F64 :=
    F64.div (some (F64.ofInt32 data_size)) (F64.ofInt32 (bytesPerSample encoder))
  F64.toInt64 (F64.mul (F64.div samplesCount (F64.ofInt32 encoder.sampleRate)) 10000000)

/-- The function `audio_encoder_write_pcm`: status, handle afterwards, calls made.
`pcm_data` is the memory behind the pointer, of which `memcpy` reads the first
`data_size` bytes. -/
def audio_encoder_write_pcm (env : WriteEnv) (encoder : Option AudioEncoder)
    (pcm_data : List ℕ) (data_size : ℕ) (timestamp_hns : ℤ) :
    ℤ × Option AudioEncoder × List Call :=
  match encoder with
  | none => (AUDIO_ENCODER_ERROR_INVALID, none, [])
  | some enc =>
    if !enc.initialized then (AUDIO_ENCODER_ERROR_INVALID, some enc, [])
    else
    let log₀ := [Call.MFCreateSample env.hrCreateSample]
    if FAILED env.hrCreateSample then
      (AUDIO_ENCODER_ERROR_WRITE,
        some { enc with lastError := "MFCreateSample failed: 0x" ++ toString env.hrCreateSample },
        log₀)
    else
    let log₁ := log₀ ++ [Call.MFCreateMemoryBuffer data_size env.hrCreateMemoryBuffer]
    if FAILED env.hrCreateMemoryBuffer then
      (AUDIO_ENCODER_ERROR_WRITE,
        some { enc with
          lastError := "MFCreateMemoryBuffer failed: 0x" ++ toString env.hrCreateMemoryBuffer },
        log₁)
    else
    let buffer : MediaBuffer :=
      if SUCCEEDED env.hrLock then
        { maxLength := data_size, bytes := some (pcm_data.take data_size),
          currentLength := data_size }
      else
        { maxLength := data_size, bytes := none, currentLength := 0 }
    let sample : Sample :=
      { buffers := [buffer], sampleTime := timestamp_hns,
        sampleDuration := sampleDuration enc data_size }
    let log₂ := log₁ ++
      [Call.SinkWriter_WriteSample enc.sinkWriter enc.streamIndex sample env.hrWriteSample]
    if FAILED env.hrWriteSample then
      (AUDIO_ENCODER_ERROR_WRITE,
        some { enc with
          lastError := "SinkWriter WriteSample failed: 0x" ++ toString env.hrWriteSample },
        log₂ ++ [Call.OutputDebugStringA
          ("[NativeEncoder] WriteSample FAILED: 0x" ++ toString env.hrWriteSample ++ "\n")])
    else
      (AUDIO_ENCODER_SUCCESS, some enc, log₂)

/-! ## `audio_encoder_finalize`, `audio_encoder_destroy`, `audio_encoder_get_error` -/

/-- The function `audio_encoder_finalize`: status, handle afterwards, calls made. -/
def audio_encoder_finalize (encoder : Option AudioEncoder) :
    ℤ × Option AudioEncoder × List Call :=
  match encoder with
  | none => (AUDIO_ENCODER_ERROR_INVALID, none, [])
  | some enc =>
    if !enc.initialized then (AUDIO_ENCODER_ERROR_INVALID, some enc, [])
    else
      (AUDIO_ENCODER_SUCCESS, some enc,
        [Call.OutputDebugStringA
          "[NativeEncoder] Finalize: No resampler drain needed (direct write mode)\n"])

/-- The function `audio_encoder_destroy`: the calls made before the handle is deleted. -/
def audio_encoder_destroy (encoder : Option AudioEncoder) : List Call :=
  match encoder with
  | none => []
  | some enc =>
    (if enc.resampler then
        [Call.Resampler_ProcessMessage .MFT_MESSAGE_NOTIFY_END_OF_STREAM, Call.Resampler_Release]
      else []) ++
    (if enc.resamplerInputSample then [Call.ResamplerInputSample_Release] else [])

/-- The function `audio_encoder_get_error`. -/
def audio_encoder_get_error (encoder : Option AudioEncoder) : String :=
  match encoder with
  | some enc => enc.lastError
  | none => "Invalid encoder"

/-! ## Sequences of calls on one handle -/

/-- One call of the write/finalize interface, with the collaborator outcomes of a write. -/
inductive Op
  | write (env : WriteEnv) (pcm_data : List ℕ) (data_size : ℕ) (timestamp_hns : ℤ)
  | finalize

/-- Is the operation a call of `audio_encoder_finalize`? -/
def Op.isFinalize : Op → Bool
  | .finalize => true
  | .write _ _ _ _ => false

/-- Runs one operation on a handle. -/
def step (encoder : Option AudioEncoder) : Op → ℤ × Option AudioEncoder × List Call
  | .write env pcm_data data_size timestamp_hns =>
    audio_encoder_write_pcm env encoder pcm_data data_size timestamp_hns
  | .finalize => audio_encoder_finalize encoder

/-- Runs a sequence of operations: the handle at the end, each operation with its status,
and all calls made, in order. -/
def run (encoder : Option AudioEncoder) : List Op → Option AudioEncoder × List (Op × ℤ) × List Call
  | [] => (encoder, [], [])
  | op :: ops =>
    let r := step encoder op
    let rest := run r.2.1 ops
    (rest.1, (op, r.1) :: rest.2.1, r.2.2 ++ rest.2.2)

/-- The fields of a handle that `audio_encoder_create` fixes. -/
def negotiated (encoder : AudioEncoder) : Bool × ℤ × ℤ × ℤ × ℕ :=
  (encoder.initialized, encoder.sampleRate, encoder.channels, encoder.inputIsFloat,
    encoder.streamIndex)

/-- The state Ready of the handle state machine: non-null and initialized. -/
def isReady (encoder : Option AudioEncoder) : Bool :=
  match encoder with
  | some enc => enc.initialized
  | none => false

/-- A descriptor carries the rate and channel count of the caller, and its average byte
rate is the 32-bit product of rate and block alignment (the plain product below `2^29` Hz). -/
def MediaType.carries (t : MediaType) (sample_rate channels : ℤ) : Prop :=
  (t.samplesPerSecond : ℤ) = sample_rate ∧ (t.numChannels : ℤ) = channels ∧
  t.avgBytesPerSecond = (t.samplesPerSecond * t.blockAlignment) % 2 ^ 32 ∧
  (sample_rate < 2 ^ 29 → t.avgBytesPerSecond = t.samplesPerSecond * t.blockAlignment)

/-! ## Concrete inputs used below -/

/-- Outcomes of a create call in which every collaborator call succeeds (`S_OK`). -/
def createAllOk : CreateEnv := ⟨0, 0, 0, 0, 0, 0, 0, 0⟩

/-- Outcomes of a create call in which only the third `MFCreateMediaType` fails
(`E_OUTOFMEMORY`, 0x8007000E). -/
def createSinkTypeAllocFails : CreateEnv := ⟨0, 0, 0, 0, 0, 0, -2147024882, 0⟩

/-- Outcomes of a write call in which every collaborator call succeeds. -/
def writeAllOk : WriteEnv := ⟨0, 0, 0, 0⟩

/-- Outcomes of a write call in which only `IMFMediaBuffer::Lock` fails (`E_FAIL`, 0x80004005). -/
def writeLockFails : WriteEnv := ⟨0, 0, -2147467259, 0⟩

/-- A ready handle for 48 kHz stereo 16-bit input on stream 1 of sink 7. -/
def ready48kStereo : AudioEncoder :=
  { resampler := true, sinkWriter := 7, streamIndex := 1, resamplerInputSample := true,
    lastError := "", initialized := true, sampleRate := 48000, channels := 2, inputIsFloat := 0 }

/-- A handle left by a create call whose resampler could not be instantiated
(`REGDB_E_CLASSNOTREG`, 0x80040154). -/
def failedHandle : AudioEncoder :=
  { resampler := false, sinkWriter := 7, streamIndex := 1, resamplerInputSample := false,
    lastError := "CoCreateInstance(CLSID_CResamplerMediaObject) failed: 0x-2147221164",
    initialized := false, sampleRate := 48000, channels := 2, inputIsFloat := 0 }

/-! # Theorems -/

/-! ## Binary64 rounding -/

theorem ilog2Aux_spec (fuel n : ℕ) (hn : n ≤ fuel) (h1 : 1 ≤ n) :
    2 ^ ilog2Aux fuel n ≤ n ∧ n < 2 ^ (ilog2Aux fuel n + 1) := by
  induction fuel generalizing n with
  | zero => omega
  | succ fuel ih =>
    unfold ilog2Aux
    split_ifs with h2
    · obtain ⟨ha, hb⟩ := ih (n / 2) (by omega) (by omega)
      constructor
      · rw [pow_succ]; omega
      · rw [pow_succ]; omega
    · constructor <;> simp <;> omega

theorem ilog2_spec (n : ℕ) (h1 : 1 ≤ n) : 2 ^ ilog2 n ≤ n ∧ n < 2 ^ (ilog2 n + 1) :=
  ilog2Aux_spec n n le_rfl h1

theorem abs_eq_natAbs_div_den (q : ℚ) : |q| = (q.num.natAbs : ℚ) / (q.den : ℚ) := by
  conv_lhs => rw [← Rat.num_div_den q]
  rw [abs_div, Nat.abs_cast, Nat.cast_natAbs, Int.cast_abs]

theorem binade_spec (q : ℚ) (hq : q ≠ 0) :
    (2 : ℚ) ^ binade q ≤ |q| ∧ |q| < (2 : ℚ) ^ (binade q + 1) := by
  have hA : 1 ≤ q.num.natAbs := by
    have : q.num ≠ 0 := Rat.num_ne_zero.mpr hq
    omega
  have hD : 1 ≤ q.den := q.den_pos
  obtain ⟨a1, a2⟩ := ilog2_spec _ hA
  obtain ⟨d1, d2⟩ := ilog2_spec _ hD
  have a1' : (2 : ℚ) ^ (ilog2 q.num.natAbs) ≤ (q.num.natAbs : ℚ) := by exact_mod_cast a1
  have a2' : (q.num.natAbs : ℚ) < (2 : ℚ) ^ (ilog2 q.num.natAbs + 1) := by exact_mod_cast a2
  have d1' : (2 : ℚ) ^ (ilog2 q.den) ≤ (q.den : ℚ) := by exact_mod_cast d1
  have d2' : (q.den : ℚ) < (2 : ℚ) ^ (ilog2 q.den + 1) := by exact_mod_cast d2
  have hDpos : (0 : ℚ) < q.den := by exact_mod_cast hD
  have habs := abs_eq_natAbs_div_den q
  unfold binade
  simp only []
  split_ifs with h
  · refine ⟨h, ?_⟩
    rw [habs, div_lt_iff₀ hDpos]
    calc (q.num.natAbs : ℚ) < (2 : ℚ) ^ (ilog2 q.num.natAbs + 1) := a2'
      _ = (2 : ℚ) ^ ((ilog2 q.num.natAbs : ℤ) - (ilog2 q.den : ℤ) + 1) * (2 : ℚ) ^ (ilog2 q.den) := by
          rw [← zpow_natCast, ← zpow_natCast, ← zpow_add₀ (by norm_num)]
          congr 1
          push_cast
          ring
      _ ≤ (2 : ℚ) ^ ((ilog2 q.num.natAbs : ℤ) - (ilog2 q.den : ℤ) + 1) * (q.den : ℚ) := by
          apply mul_le_mul_of_nonneg_left d1'
          positivity
  · refine ⟨?_, ?_⟩
    · rw [habs, le_div_iff₀ hDpos]
      calc (2 : ℚ) ^ ((ilog2 q.num.natAbs : ℤ) - (ilog2 q.den : ℤ) - 1) * (q.den : ℚ)
          ≤ (2 : ℚ) ^ ((ilog2 q.num.natAbs : ℤ) - (ilog2 q.den : ℤ) - 1) *
              (2 : ℚ) ^ (ilog2 q.den + 1) := by
            apply mul_le_mul_of_nonneg_left (le_of_lt d2')
            positivity
        _ = (2 : ℚ) ^ (ilog2 q.num.natAbs) := by
            rw [← zpow_natCast, ← zpow_natCast, ← zpow_add₀ (by norm_num)]
            congr 1
            push_cast
            ring
        _ ≤ (q.num.natAbs : ℚ) := a1'
    · have := lt_of_not_le h
      simpa using this

theorem roundNE_sub_le (q : ℚ) :
    |roundNE q - q| ≤ (2 : ℚ) ^ (max (binade q - 52) (-1074)) / 2 := by
  unfold roundNE
  simp only []
  generalize max (binade q - 52) (-1074) = e
  have hpos : (0 : ℚ) < (2 : ℚ) ^ e := by positivity
  have hq : q = q / (2 : ℚ) ^ e * (2 : ℚ) ^ e := by field_simp
  generalize q / (2 : ℚ) ^ e = s at hq ⊢
  have key : ∀ m : ℤ, |(m : ℚ) - s| ≤ 1 / 2 → |(m : ℚ) * (2 : ℚ) ^ e - q| ≤ (2 : ℚ) ^ e / 2 := by
    intro m hm
    have : (m : ℚ) * (2 : ℚ) ^ e - q = ((m : ℚ) - s) * (2 : ℚ) ^ e := by rw [hq]; ring
    rw [this, abs_mul, abs_of_pos hpos]
    calc |(m : ℚ) - s| * (2 : ℚ) ^ e ≤ 1 / 2 * (2 : ℚ) ^ e :=
          mul_le_mul_of_nonneg_right hm (le_of_lt hpos)
      _ = (2 : ℚ) ^ e / 2 := by ring
  have h1 := Int.floor_le s
  have h2 := Int.lt_floor_add_one s
  apply key
  rw [abs_le]
  split_ifs with c1 c2 c3 <;> constructor <;> push_cast <;> linarith

theorem roundNE_of_scaled_int (q : ℚ) (z : ℤ)
    (h : q / (2 : ℚ) ^ (max (binade q - 52) (-1074)) = z) : roundNE q = q := by
  unfold roundNE
  simp only [h, Int.floor_intCast, sub_self]
  rw [if_pos (by norm_num), ← h]
  have hpos : (0 : ℚ) < (2 : ℚ) ^ (max (binade q - 52) (-1074)) := by positivity
  field_simp

theorem binade_lt_of_abs_lt (q : ℚ) (hq : q ≠ 0) (k : ℤ) (h : |q| < (2 : ℚ) ^ k) :
    binade q < k := by
  have h1 := (binade_spec q hq).1
  have : (2 : ℚ) ^ binade q < (2 : ℚ) ^ k := lt_of_le_of_lt h1 h
  exact (zpow_lt_zpow_iff_right₀ (by norm_num : (1 : ℚ) < 2)).mp this

theorem le_binade_of_le_abs (q : ℚ) (hq : q ≠ 0) (k : ℤ) (h : (2 : ℚ) ^ k ≤ |q|) :
    k ≤ binade q := by
  have h1 := (binade_spec q hq).2
  have : (2 : ℚ) ^ k < (2 : ℚ) ^ (binade q + 1) := lt_of_le_of_lt h h1
  have := (zpow_lt_zpow_iff_right₀ (by norm_num : (1 : ℚ) < 2)).mp this
  omega

theorem roundNE_intCast (i : ℤ) (h : |i| < 2 ^ 53) : roundNE (i : ℚ) = i := by
  by_cases hi : i = 0
  · subst hi
    exact roundNE_of_scaled_int _ 0 (by simp)
  · have hq : (i : ℚ) ≠ 0 := by exact_mod_cast hi
    have hlt : binade (i : ℚ) < 53 := by
      apply binade_lt_of_abs_lt _ hq
      have h53 : |(i : ℚ)| < (2 : ℚ) ^ (53 : ℕ) := by exact_mod_cast h
      have e53 : (2 : ℚ) ^ (53 : ℤ) = (2 : ℚ) ^ (53 : ℕ) := by norm_num
      rw [e53]
      exact h53
    have hge : 0 ≤ binade (i : ℚ) := by
      apply le_binade_of_le_abs _ hq
      have : (1 : ℤ) ≤ |i| := Int.one_le_abs hi
      have : ((1 : ℤ) : ℚ) ≤ ((|i| : ℤ) : ℚ) := by exact_mod_cast this
      simpa using this
    have he : max (binade (i : ℚ) - 52) (-1074) = binade (i : ℚ) - 52 := by omega
    obtain ⟨n, hn⟩ : ∃ n : ℕ, (n : ℤ) = 52 - binade (i : ℚ) := ⟨(52 - binade (i : ℚ)).toNat, by omega⟩
    apply roundNE_of_scaled_int _ (i * 2 ^ n)
    rw [he]
    have : binade (i : ℚ) - 52 = -(n : ℤ) := by omega
    rw [this, zpow_neg, zpow_natCast]
    push_cast
    field_simp

/-- Relative error of one rounding in the normal range. -/
theorem roundNE_rel (q : ℚ) (hq : 0 < q) (hn : (2 : ℚ) ^ (-1022 : ℤ) ≤ q) :
    (1 - 1 / 2 ^ 53) * q ≤ roundNE q ∧ roundNE q ≤ (1 + 1 / 2 ^ 53) * q := by
  have hq0 : q ≠ 0 := ne_of_gt hq
  have habs : |q| = q := abs_of_pos hq
  have hb : -1022 ≤ binade q := le_binade_of_le_abs q hq0 _ (by rw [habs]; exact hn)
  have he : max (binade q - 52) (-1074) = binade q - 52 := by omega
  have herr := roundNE_sub_le q
  rw [he] at herr
  have h2 : (2 : ℚ) ^ (binade q - 52) / 2 = (2 : ℚ) ^ binade q * (1 / 2 ^ 53) := by
    rw [zpow_sub₀ (by norm_num)]
    norm_num
    ring
  have h3 : (2 : ℚ) ^ binade q ≤ q := by
    have := (binade_spec q hq0).1
    rwa [habs] at this
  have h4 : |roundNE q - q| ≤ q * (1 / 2 ^ 53) := by
    rw [h2] at herr
    exact le_trans herr (mul_le_mul_of_nonneg_right h3 (by positivity))
  rw [abs_le] at h4
  constructor <;> nlinarith [h4.1, h4.2]

theorem tiny_le (q : ℚ) (h : 1 / 2 ^ 70 ≤ q) : (2 : ℚ) ^ (-1022 : ℤ) ≤ q := by
  have h1 : (2 : ℚ) ^ (-1022 : ℤ) ≤ (2 : ℚ) ^ (-70 : ℤ) :=
    zpow_le_zpow_right₀ (by norm_num) (by norm_num)
  have h2 : (2 : ℚ) ^ (-70 : ℤ) = 1 / 2 ^ 70 := by
    rw [zpow_neg, one_div]
    norm_num
  rw [h2] at h1
  exact le_trans h1 h

/-- The three roundings of the duration formula on positive operands: all intermediate
values are positive and small, and the result stays within the compounded relative error. -/
theorem duration_chain (N B R : ℚ) (hN1 : 1 ≤ N) (hN : N ≤ 2 ^ 32) (hB1 : 1 ≤ B)
    (hB : B ≤ 2 ^ 31) (hR1 : 1 ≤ R) (hR : R ≤ 2 ^ 31) :
    0 < roundNE (N / B) ∧ roundNE (N / B) < 2 ^ 34 ∧
    0 < roundNE (roundNE (N / B) / R) ∧ roundNE (roundNE (N / B) / R) < 2 ^ 35 ∧
    0 < roundNE (roundNE (roundNE (N / B) / R) * 10000000) ∧
    roundNE (roundNE (roundNE (N / B) / R) * 10000000) < 2 ^ 60 ∧
    (1 - 1 / 2 ^ 53) ^ 3 * (N * 10000000 / (B * R)) ≤
      roundNE (roundNE (roundNE (N / B) / R) * 10000000) ∧
    roundNE (roundNE (roundNE (N / B) / R) * 10000000) ≤
      (1 + 1 / 2 ^ 53) ^ 3 * (N * 10000000 / (B * R)) := by
  have hBpos : (0 : ℚ) < B := by linarith
  have hRpos : (0 : ℚ) < R := by linarith
  have hNpos : (0 : ℚ) < N := by linarith
  -- first rounding
  have hx0pos : 0 < N / B := div_pos hNpos hBpos
  have hx0lo : 1 / 2 ^ 31 ≤ N / B := by
    rw [div_le_div_iff₀ (by positivity) hBpos]
    nlinarith
  have hx0hi : N / B ≤ 2 ^ 32 := by
    rw [div_le_iff₀ hBpos]
    nlinarith
  obtain ⟨a_lo, a_hi⟩ := roundNE_rel (N / B) hx0pos (tiny_le _ (le_trans (by norm_num) hx0lo))
  generalize roundNE (N / B) = a at a_lo a_hi ⊢
  have ha1 : 1 / 2 ^ 32 ≤ a := by
    have : (1 - 1 / 2 ^ 53) * (1 / 2 ^ 31 : ℚ) ≤ (1 - 1 / 2 ^ 53) * (N / B) :=
      mul_le_mul_of_nonneg_left hx0lo (by norm_num)
    have h' : (1 / 2 ^ 32 : ℚ) ≤ (1 - 1 / 2 ^ 53) * (1 / 2 ^ 31 : ℚ) := by norm_num
    linarith
  have ha2 : a ≤ 2 ^ 33 := by
    have : (1 + 1 / 2 ^ 53) * (N / B) ≤ (1 + 1 / 2 ^ 53) * (2 ^ 32 : ℚ) :=
      mul_le_mul_of_nonneg_left hx0hi (by norm_num)
    have h' : (1 + 1 / 2 ^ 53) * (2 ^ 32 : ℚ) ≤ 2 ^ 33 := by norm_num
    linarith
  have hapos : 0 < a := lt_of_lt_of_le (by norm_num) ha1
  -- second rounding
  have hx1pos : 0 < a / R := div_pos hapos hRpos
  have hx1lo : 1 / 2 ^ 63 ≤ a / R := by
    rw [div_le_div_iff₀ (by positivity) hRpos]
    have : (1 : ℚ) * R ≤ 1 * 2 ^ 31 := by linarith
    calc (1 : ℚ) * R ≤ 2 ^ 31 := by linarith
      _ = 1 / 2 ^ 32 * 2 ^ 63 := by norm_num
      _ ≤ a * 2 ^ 63 := mul_le_mul_of_nonneg_right ha1 (by norm_num)
  have hx1hi : a / R ≤ 2 ^ 33 := by
    rw [div_le_iff₀ hRpos]
    nlinarith
  obtain ⟨b_lo, b_hi⟩ := roundNE_rel (a / R) hx1pos (tiny_le _ (le_trans (by norm_num) hx1lo))
  generalize roundNE (a / R) = b at b_lo b_hi ⊢
  have hb1 : 1 / 2 ^ 64 ≤ b := by
    have : (1 - 1 / 2 ^ 53) * (1 / 2 ^ 63 : ℚ) ≤ (1 - 1 / 2 ^ 53) * (a / R) :=
      mul_le_mul_of_nonneg_left hx1lo (by norm_num)
    have h' : (1 / 2 ^ 64 : ℚ) ≤ (1 - 1 / 2 ^ 53) * (1 / 2 ^ 63 : ℚ) := by norm_num
    linarith
  have hb2 : b ≤ 2 ^ 34 := by
    have : (1 + 1 / 2 ^ 53) * (a / R) ≤ (1 + 1 / 2 ^ 53) * (2 ^ 33 : ℚ) :=
      mul_le_mul_of_nonneg_left hx1hi (by norm_num)
    have h' : (1 + 1 / 2 ^ 53) * (2 ^ 33 : ℚ) ≤ 2 ^ 34 := by norm_num
    linarith
  have hbpos : 0 < b := lt_of_lt_of_le (by norm_num) hb1
  -- third rounding
  have hx2pos : 0 < b * 10000000 := by positivity
  have hx2lo : 1 / 2 ^ 64 ≤ b * 10000000 := by linarith
  have hx2hi : b * 10000000 ≤ 2 ^ 58 := by
    have : b * 10000000 ≤ 2 ^ 34 * 10000000 := by linarith
    have h' : (2 ^ 34 * 10000000 : ℚ) ≤ 2 ^ 58 := by norm_num
    linarith
  obtain ⟨c_lo, c_hi⟩ :=
    roundNE_rel (b * 10000000) hx2pos (tiny_le _ (le_trans (by norm_num) hx2lo))
  generalize roundNE (b * 10000000) = c at c_lo c_hi ⊢
  have hcpos : 0 < c := by
    have : 0 < (1 - 1 / 2 ^ 53) * (b * 10000000) := mul_pos (by norm_num) hx2pos
    linarith
  have hc2 : c < 2 ^ 60 := by
    have : (1 + 1 / 2 ^ 53) * (b * 10000000) ≤ (1 + 1 / 2 ^ 53) * (2 ^ 58 : ℚ) :=
      mul_le_mul_of_nonneg_left hx2hi (by norm_num)
    have h' : (1 + 1 / 2 ^ 53) * (2 ^ 58 : ℚ) < 2 ^ 60 := by norm_num
    linarith
  have hx : N * 10000000 / (B * R) = N / B / R * 10000000 := by
    field_simp
  refine ⟨hapos, by linarith, hbpos, by linarith, hcpos, hc2, ?_, ?_⟩
  · rw [hx]
    calc (1 - 1 / 2 ^ 53) ^ 3 * (N / B / R * 10000000)
        = (1 - 1 / 2 ^ 53) * ((1 - 1 / 2 ^ 53) * ((1 - 1 / 2 ^ 53) * (N / B) / R) * 10000000) := by
          ring
      _ ≤ (1 - 1 / 2 ^ 53) * ((1 - 1 / 2 ^ 53) * (a / R) * 10000000) := by gcongr
      _ ≤ (1 - 1 / 2 ^ 53) * (b * 10000000) := by gcongr
      _ ≤ c := c_lo
  · rw [hx]
    calc c ≤ (1 + 1 / 2 ^ 53) * (b * 10000000) := c_hi
      _ ≤ (1 + 1 / 2 ^ 53) * ((1 + 1 / 2 ^ 53) * (a / R) * 10000000) := by gcongr
      _ ≤ (1 + 1 / 2 ^ 53) * ((1 + 1 / 2 ^ 53) * ((1 + 1 / 2 ^ 53) * (N / B) / R) * 10000000) := by
          gcongr
      _ = (1 + 1 / 2 ^ 53) ^ 3 * (N / B / R * 10000000) := by ring

/-- A dyadic rational with a significand of at most 53 bits is a binary64 value. -/
theorem roundNE_dyadic (m j : ℤ) (hm : |m| ≤ 2 ^ 53) (hj : -1074 ≤ j) :
    roundNE ((m : ℚ) * (2 : ℚ) ^ j) = (m : ℚ) * (2 : ℚ) ^ j := by
  by_cases hm0 : m = 0
  · subst hm0
    simp only [Int.cast_zero, zero_mul]
    exact roundNE_of_scaled_int 0 0 (by simp)
  have h2pos : (0 : ℚ) < (2 : ℚ) ^ j := by positivity
  have hq : (m : ℚ) * (2 : ℚ) ^ j ≠ 0 := by
    apply mul_ne_zero _ (ne_of_gt h2pos)
    exact_mod_cast hm0
  have hmq : |(m : ℚ)| ≤ (2 : ℚ) ^ (53 : ℤ) := by
    have h53 : |(m : ℚ)| ≤ (2 : ℚ) ^ (53 : ℕ) := by exact_mod_cast hm
    have e53 : (2 : ℚ) ^ (53 : ℤ) = (2 : ℚ) ^ (53 : ℕ) := by norm_num
    rw [e53]
    exact h53
  have habs : |(m : ℚ) * (2 : ℚ) ^ j| = |(m : ℚ)| * (2 : ℚ) ^ j := by
    rw [abs_mul, abs_of_pos h2pos]
  have hb : binade ((m : ℚ) * (2 : ℚ) ^ j) ≤ 53 + j := by
    have h1 := (binade_spec _ hq).1
    rw [habs] at h1
    have h2 : |(m : ℚ)| * (2 : ℚ) ^ j ≤ (2 : ℚ) ^ (53 + j) := by
      rw [zpow_add₀ (by norm_num : (2 : ℚ) ≠ 0)]
      exact mul_le_mul_of_nonneg_right hmq (le_of_lt h2pos)
    exact (zpow_le_zpow_iff_right₀ (by norm_num : (1 : ℚ) < 2)).mp (le_trans h1 h2)
  by_cases hle : max (binade ((m : ℚ) * (2 : ℚ) ^ j) - 52) (-1074) ≤ j
  · obtain ⟨n, hn⟩ : ∃ n : ℕ, (n : ℤ) = j - max (binade ((m : ℚ) * (2 : ℚ) ^ j) - 52) (-1074) :=
      ⟨(j - max (binade ((m : ℚ) * (2 : ℚ) ^ j) - 52) (-1074)).toNat, by omega⟩
    apply roundNE_of_scaled_int _ (m * 2 ^ n)
    generalize max (binade ((m : ℚ) * (2 : ℚ) ^ j) - 52) (-1074) = e at hn hle ⊢
    have hj' : j = e + n := by omega
    rw [hj', zpow_add₀ (by norm_num : (2 : ℚ) ≠ 0), zpow_natCast]
    push_cast
    field_simp
    ring
  · have he : max (binade ((m : ℚ) * (2 : ℚ) ^ j) - 52) (-1074) = j + 1 := by omega
    have hbeq : binade ((m : ℚ) * (2 : ℚ) ^ j) = 53 + j := by omega
    have h1 := (binade_spec _ hq).1
    rw [habs, hbeq, zpow_add₀ (by norm_num : (2 : ℚ) ≠ 0)] at h1
    have h53 : (2 : ℚ) ^ (53 : ℤ) ≤ |(m : ℚ)| := le_of_mul_le_mul_right h1 h2pos
    have hmabs : |(m : ℚ)| = (2 : ℚ) ^ (53 : ℤ) := le_antisymm hmq h53
    rcases abs_eq (by positivity : (0 : ℚ) ≤ (2 : ℚ) ^ (53 : ℤ)) |>.mp hmabs with h | h
    · apply roundNE_of_scaled_int _ (2 ^ 52)
      rw [he, h, zpow_add₀ (by norm_num : (2 : ℚ) ≠ 0)]
      push_cast
      field_simp
      norm_num
      ring
    · apply roundNE_of_scaled_int _ (-2 ^ 52)
      rw [he, h, zpow_add₀ (by norm_num : (2 : ℚ) ≠ 0)]
      push_cast
      field_simp
      norm_num
      ring

/-- Every rounded value is a significand of at most 53 bits times the quantum. -/
theorem roundNE_form (q : ℚ) :
    ∃ m : ℤ, |m| ≤ 2 ^ 53 ∧
      roundNE q = (m : ℚ) * (2 : ℚ) ^ (max (binade q - 52) (-1074)) := by
  have hs : |q / (2 : ℚ) ^ (max (binade q - 52) (-1074))| < (2 : ℚ) ^ (53 : ℕ) := by
    have hpos : (0 : ℚ) < (2 : ℚ) ^ (max (binade q - 52) (-1074)) := by positivity
    rw [abs_div, abs_of_pos hpos, div_lt_iff₀ hpos]
    by_cases hq : q = 0
    · subst hq
      simp only [abs_zero]
      positivity
    · have h1 := (binade_spec q hq).2
      have h2 : (2 : ℚ) ^ (binade q + 1) ≤
          (2 : ℚ) ^ (53 : ℕ) * (2 : ℚ) ^ (max (binade q - 52) (-1074)) := by
        rw [← zpow_natCast, ← zpow_add₀ (by norm_num : (2 : ℚ) ≠ 0)]
        apply zpow_le_zpow_right₀ (by norm_num)
        push_cast
        have := le_max_left (binade q - 52) (-1074)
        omega
      exact lt_of_lt_of_le h1 h2
  unfold roundNE
  simp only []
  generalize q / (2 : ℚ) ^ (max (binade q - 52) (-1074)) = s at hs ⊢
  rw [abs_lt] at hs
  have f1 : ⌊s⌋ < 2 ^ 53 := by
    rw [Int.floor_lt]
    push_cast
    exact hs.2
  have f2 : -2 ^ 53 ≤ ⌊s⌋ := by
    rw [Int.le_floor]
    push_cast
    exact le_of_lt hs.1
  refine ⟨_, ?_, rfl⟩
  rw [abs_le]
  split_ifs <;> constructor <;> omega

/-- A rounded value divided by a small power of two is again a binary64 value. -/
theorem roundNE_roundNE_div_pow2 (q : ℚ) (j : ℕ) (hb : -1000 ≤ binade q) (hj : j ≤ 20) :
    roundNE (roundNE q / (2 : ℚ) ^ j) = roundNE q / (2 : ℚ) ^ j := by
  obtain ⟨m, hm, hform⟩ := roundNE_form q
  have he : max (binade q - 52) (-1074) = binade q - 52 := by omega
  rw [he] at hform
  have hpow : (2 : ℚ) ^ (binade q - 52 - (j : ℤ)) = (2 : ℚ) ^ (binade q - 52) / (2 : ℚ) ^ j := by
    rw [zpow_sub₀ (by norm_num : (2 : ℚ) ≠ 0) (binade q - 52) (j : ℤ), zpow_natCast]
  have hdiv : roundNE q / (2 : ℚ) ^ j = (m : ℚ) * (2 : ℚ) ^ (binade q - 52 - (j : ℤ)) := by
    rw [hform, hpow]
    ring
  rw [hdiv]
  exact roundNE_dyadic m _ hm (by omega)

theorem roundNE_err_half (q : ℚ) (hq : |q| < (2 : ℚ) ^ (53 : ℕ)) : |roundNE q - q| ≤ 1 / 2 := by
  by_cases h0 : q = 0
  · subst h0
    rw [roundNE_of_scaled_int 0 0 (by simp)]
    norm_num
  have hb : binade q < 53 := by
    apply binade_lt_of_abs_lt q h0
    have e53 : (2 : ℚ) ^ (53 : ℤ) = (2 : ℚ) ^ (53 : ℕ) := by norm_num
    rw [e53]
    exact hq
  have h := roundNE_sub_le q
  have h2 : (2 : ℚ) ^ (max (binade q - 52) (-1074)) ≤ (2 : ℚ) ^ (0 : ℤ) :=
    zpow_le_zpow_right₀ (by norm_num) (by omega)
  rw [zpow_zero] at h2
  linarith

theorem roundNE_half_int (q : ℚ) (hq : (2 : ℚ) ^ (51 : ℕ) ≤ |q|) :
    ∃ z : ℤ, 2 * roundNE q = (z : ℚ) := by
  have h0 : q ≠ 0 := by
    intro h
    rw [h, abs_zero] at hq
    have : (0 : ℚ) < (2 : ℚ) ^ (51 : ℕ) := by positivity
    linarith
  have hb : 51 ≤ binade q := by
    apply le_binade_of_le_abs q h0
    have e51 : (2 : ℚ) ^ (51 : ℤ) = (2 : ℚ) ^ (51 : ℕ) := by norm_num
    rw [e51]
    exact hq
  obtain ⟨m, -, hform⟩ := roundNE_form q
  have he : max (binade q - 52) (-1074) = binade q - 52 := by omega
  rw [he] at hform
  obtain ⟨n, hn⟩ : ∃ n : ℕ, (n : ℤ) = binade q - 51 := ⟨(binade q - 51).toNat, by omega⟩
  refine ⟨m * 2 ^ n, ?_⟩
  have : binade q - 52 = (n : ℤ) - 1 := by omega
  rw [hform, this, zpow_sub₀ (by norm_num : (2 : ℚ) ≠ 0), zpow_natCast]
  push_cast
  ring

theorem floor_near_of_abs (x c : ℚ) (k : ℤ) (hk1 : (k : ℚ) ≤ x) (hk2 : x < (k : ℚ) + 1)
    (h1 : c - x < 1) (h2 : x - c < 1) : k - 1 ≤ ⌊c⌋ ∧ ⌊c⌋ ≤ k + 1 := by
  constructor
  · rw [Int.le_floor]
    push_cast
    linarith
  · have : ⌊c⌋ < k + 2 := by
      rw [Int.floor_lt]
      push_cast
      linarith
    omega

/-- Second stage when the divisor of the first stage is a power of two: the first
quotient is exact and the second carries one rounding. -/
theorem stage2_pow2_num (N i : ℕ) (R : ℚ) (hN1 : 1 ≤ N) (hN : N < 2 ^ 32) (hi : i ≤ 31)
    (hR1 : 1 ≤ R) (hR : R ≤ 2 ^ 31) :
    (1 - 1 / 2 ^ 53) * ((N : ℚ) / 2 ^ i / R) ≤ roundNE (roundNE ((N : ℚ) / 2 ^ i) / R) ∧
    roundNE (roundNE ((N : ℚ) / 2 ^ i) / R) ≤ (1 + 1 / 2 ^ 53) * ((N : ℚ) / 2 ^ i / R) := by
  have hex : roundNE ((N : ℚ) / 2 ^ i) = (N : ℚ) / 2 ^ i := by
    have h := roundNE_dyadic (N : ℤ) (-(i : ℤ)) (by rw [abs_of_nonneg (by positivity)]; omega)
      (by omega)
    rw [zpow_neg, zpow_natCast] at h
    simpa [div_eq_mul_inv] using h
  rw [hex]
  have hNq : (1 : ℚ) ≤ (N : ℚ) := by exact_mod_cast hN1
  have hpow : (2 : ℚ) ^ i ≤ 2 ^ 31 := pow_le_pow_right₀ (by norm_num) hi
  have hpos : (0 : ℚ) < (2 : ℚ) ^ i := by positivity
  have hRpos : (0 : ℚ) < R := by linarith
  have hq : 0 < (N : ℚ) / 2 ^ i / R := by positivity
  have hlo : (1 : ℚ) / 2 ^ 62 ≤ (N : ℚ) / 2 ^ i / R := by
    rw [div_div, div_le_div_iff₀ (by positivity) (by positivity)]
    have : (2 : ℚ) ^ i * R ≤ 2 ^ 31 * 2 ^ 31 := mul_le_mul hpow hR (le_of_lt hRpos) (by positivity)
    nlinarith
  exact roundNE_rel _ hq (tiny_le _ (le_trans (by norm_num) hlo))

/-- Second stage when the sample rate is a power of two: the division by the rate is
exact, so the second-stage value carries the single rounding of the first. -/
theorem stage2_pow2_den (N B : ℚ) (j : ℕ) (hN1 : 1 ≤ N) (hB1 : 1 ≤ B)
    (hB : B ≤ 2 ^ 31) (hj : j ≤ 20) :
    (1 - 1 / 2 ^ 53) * (N / B / 2 ^ j) ≤ roundNE (roundNE (N / B) / 2 ^ j) ∧
    roundNE (roundNE (N / B) / 2 ^ j) ≤ (1 + 1 / 2 ^ 53) * (N / B / 2 ^ j) := by
  have hBpos : (0 : ℚ) < B := by linarith
  have hNpos : (0 : ℚ) < N := by linarith
  have hq : 0 < N / B := div_pos hNpos hBpos
  have hlo : (1 : ℚ) / 2 ^ 31 ≤ N / B := by
    rw [div_le_div_iff₀ (by positivity) hBpos]
    nlinarith
  have hbin : -1000 ≤ binade (N / B) := by
    apply le_binade_of_le_abs _ (ne_of_gt hq)
    rw [abs_of_pos hq]
    have h1 : (2 : ℚ) ^ (-1000 : ℤ) ≤ (2 : ℚ) ^ (-31 : ℤ) :=
      zpow_le_zpow_right₀ (by norm_num) (by norm_num)
    have h2 : (2 : ℚ) ^ (-31 : ℤ) = 1 / 2 ^ 31 := by
      rw [zpow_neg, one_div]
      norm_num
    rw [h2] at h1
    exact le_trans h1 hlo
  rw [roundNE_roundNE_div_pow2 _ j hbin hj]
  obtain ⟨h1, h2⟩ := roundNE_rel _ hq (tiny_le _ (le_trans (by norm_num) hlo))
  have hpos : (0 : ℚ) < (2 : ℚ) ^ j := by positivity
  constructor
  · rw [← mul_div_assoc]
    exact div_le_div_of_nonneg_right h1 (le_of_lt hpos)
  · rw [← mul_div_assoc]
    exact div_le_div_of_nonneg_right h2 (le_of_lt hpos)

/-- Last stage after at most one rounding, below `4.5e15`: the result is within one
of the exact value. -/
theorem floor_near_two_rounds (y b : ℚ) (k : ℤ) (hy : 1 / 2 ^ 62 ≤ y)
    (hb1 : (1 - 1 / 2 ^ 53) * y ≤ b) (hb2 : b ≤ (1 + 1 / 2 ^ 53) * y)
    (hx : y * 10000000 ≤ 4500000000000000)
    (hk1 : (k : ℚ) ≤ y * 10000000) (hk2 : y * 10000000 < (k : ℚ) + 1) :
    k - 1 ≤ ⌊roundNE (b * 10000000)⌋ ∧ ⌊roundNE (b * 10000000)⌋ ≤ k + 1 := by
  have hypos : 0 < y := lt_of_lt_of_le (by norm_num) hy
  have hbpos : 0 < b := by
    have : 0 < (1 - 1 / 2 ^ 53) * y := mul_pos (by norm_num) hypos
    linarith
  have hblo : 1 / 2 ^ 63 ≤ b := by
    have : (1 - 1 / 2 ^ 53) * (1 / 2 ^ 62 : ℚ) ≤ (1 - 1 / 2 ^ 53) * y :=
      mul_le_mul_of_nonneg_left hy (by norm_num)
    have h' : (1 / 2 ^ 63 : ℚ) ≤ (1 - 1 / 2 ^ 53) * (1 / 2 ^ 62 : ℚ) := by norm_num
    linarith
  have hx2pos : 0 < b * 10000000 := by positivity
  have hx2lo : 1 / 2 ^ 63 ≤ b * 10000000 := by linarith
  obtain ⟨c_lo, c_hi⟩ :=
    roundNE_rel (b * 10000000) hx2pos (tiny_le _ (le_trans (by norm_num) hx2lo))
  generalize roundNE (b * 10000000) = c at c_lo c_hi ⊢
  have hhi : c ≤ (1 + 1 / 2 ^ 53) ^ 2 * (y * 10000000) := by
    calc c ≤ (1 + 1 / 2 ^ 53) * (b * 10000000) := c_hi
      _ ≤ (1 + 1 / 2 ^ 53) * ((1 + 1 / 2 ^ 53) * y * 10000000) := by gcongr
      _ = (1 + 1 / 2 ^ 53) ^ 2 * (y * 10000000) := by ring
  have hlo : (1 - 1 / 2 ^ 53) ^ 2 * (y * 10000000) ≤ c := by
    calc (1 - 1 / 2 ^ 53) ^ 2 * (y * 10000000)
        = (1 - 1 / 2 ^ 53) * ((1 - 1 / 2 ^ 53) * y * 10000000) := by ring
      _ ≤ (1 - 1 / 2 ^ 53) * (b * 10000000) := by gcongr
      _ ≤ c := c_lo
  apply floor_near_of_abs _ _ _ hk1 hk2
  · have : ((1 + 1 / 2 ^ 53) ^ 2 - 1) * (y * 10000000) ≤
        ((1 + 1 / 2 ^ 53) ^ 2 - 1) * (4500000000000000 : ℚ) :=
      mul_le_mul_of_nonneg_left hx (by norm_num)
    have h' : ((1 + 1 / 2 ^ 53) ^ 2 - 1) * (4500000000000000 : ℚ) < 1 := by norm_num
    linarith
  · have : (1 - (1 - 1 / 2 ^ 53) ^ 2) * (y * 10000000) ≤
        (1 - (1 - 1 / 2 ^ 53) ^ 2) * (4500000000000000 : ℚ) :=
      mul_le_mul_of_nonneg_left hx (by norm_num)
    have h' : (1 - (1 - 1 / 2 ^ 53) ^ 2) * (4500000000000000 : ℚ) < 1 := by norm_num
    linarith

/-- Last stage after at most one rounding, between `4.5e15` and `7.2e15`, when three times
the exact value is an integer: the result is a half-integer within `4/3` of the exact
value, hence its floor is within one of the exact floor. -/
theorem floor_near_thirds (y b : ℚ) (k z : ℤ)
    (hb1 : (1 - 1 / 2 ^ 53) * y ≤ b) (hb2 : b ≤ (1 + 1 / 2 ^ 53) * y)
    (hx1 : 4500000000000000 < y * 10000000) (hx2 : y * 10000000 ≤ 7200000000000000)
    (hz : 3 * (y * 10000000) = (z : ℚ))
    (hk1 : (k : ℚ) ≤ y * 10000000) (hk2 : y * 10000000 < (k : ℚ) + 1) :
    k - 1 ≤ ⌊roundNE (b * 10000000)⌋ ∧ ⌊roundNE (b * 10000000)⌋ ≤ k + 1 := by
  have hlo2 : (1 - 1 / 2 ^ 53) * (y * 10000000) ≤ b * 10000000 := by nlinarith
  have hhi2 : b * 10000000 ≤ (1 + 1 / 2 ^ 53) * (y * 10000000) := by nlinarith
  generalize y * 10000000 = x at hx1 hx2 hz hk1 hk2 hlo2 hhi2
  generalize b * 10000000 = x2 at hlo2 hhi2 ⊢
  have hx2pos : 0 < x2 := by
    have : (0 : ℚ) < (1 - 1 / 2 ^ 53) * x := mul_pos (by norm_num) (by linarith)
    linarith
  have hlt : |x2| < (2 : ℚ) ^ (53 : ℕ) := by
    rw [abs_of_pos hx2pos]
    have : (1 + 1 / 2 ^ 53) * x ≤ (1 + 1 / 2 ^ 53) * (7200000000000000 : ℚ) :=
      mul_le_mul_of_nonneg_left hx2 (by norm_num)
    have h' : (1 + 1 / 2 ^ 53) * (7200000000000000 : ℚ) < 2 ^ 53 := by norm_num
    linarith
  have hge : (2 : ℚ) ^ (51 : ℕ) ≤ |x2| := by
    rw [abs_of_pos hx2pos]
    have : (1 - 1 / 2 ^ 53) * (4500000000000000 : ℚ) ≤ (1 - 1 / 2 ^ 53) * x :=
      mul_le_mul_of_nonneg_left (le_of_lt hx1) (by norm_num)
    have h' : (2 : ℚ) ^ 51 ≤ (1 - 1 / 2 ^ 53) * (4500000000000000 : ℚ) := by norm_num
    linarith
  have herr := roundNE_err_half x2 hlt
  obtain ⟨z2, hz2⟩ := roundNE_half_int x2 hge
  generalize roundNE x2 = c at herr hz2 ⊢
  rw [abs_le] at herr
  have hd1 : x2 - x ≤ 5 / 6 := by
    have : (1 / 2 ^ 53 : ℚ) * x ≤ 1 / 2 ^ 53 * 7200000000000000 :=
      mul_le_mul_of_nonneg_left hx2 (by norm_num)
    have h' : (1 / 2 ^ 53 : ℚ) * 7200000000000000 < 5 / 6 := by norm_num
    linarith
  have hd2 : x - x2 ≤ 5 / 6 := by
    have : (1 / 2 ^ 53 : ℚ) * x ≤ 1 / 2 ^ 53 * 7200000000000000 :=
      mul_le_mul_of_nonneg_left hx2 (by norm_num)
    have h' : (1 / 2 ^ 53 : ℚ) * 7200000000000000 < 5 / 6 := by norm_num
    linarith
  -- integer facts
  have hzk : z ≤ 3 * k + 2 := by
    have : (z : ℚ) < 3 * (k : ℚ) + 3 := by linarith
    have : z < 3 * k + 3 := by exact_mod_cast this
    omega
  have hzk' : (z : ℚ) ≤ 3 * (k : ℚ) + 2 := by exact_mod_cast hzk
  have hz2k : 2 * k - 2 ≤ z2 := by
    have : 2 * (k : ℚ) - 3 < (z2 : ℚ) := by linarith
    have : 2 * k - 3 < z2 := by exact_mod_cast this
    omega
  have hz2k' : 2 * (k : ℚ) - 2 ≤ (z2 : ℚ) := by exact_mod_cast hz2k
  constructor
  · rw [Int.le_floor]
    push_cast
    linarith
  · have : ⌊c⌋ < k + 2 := by
      rw [Int.floor_lt]
      push_cast
      linarith
    omega

/-- When both divisors are powers of two no stage rounds. -/
theorem chain_exact (N i j : ℕ) (hN : N < 2 ^ 32) (hij : i + j ≤ 7) :
    roundNE (roundNE (roundNE ((N : ℚ) / 2 ^ i) / 2 ^ j) * 10000000) =
      (N : ℚ) / 2 ^ i / 2 ^ j * 10000000 := by
  have h1 : roundNE ((N : ℚ) / 2 ^ i) = (N : ℚ) / 2 ^ i := by
    have h := roundNE_dyadic (N : ℤ) (-(i : ℤ)) (by rw [abs_of_nonneg (by positivity)]; omega)
      (by omega)
    rw [zpow_neg, zpow_natCast] at h
    simpa [div_eq_mul_inv] using h
  have h2 : roundNE ((N : ℚ) / 2 ^ i / 2 ^ j) = (N : ℚ) / 2 ^ i / 2 ^ j := by
    have h := roundNE_dyadic (N : ℤ) (-((i + j : ℕ) : ℤ))
      (by rw [abs_of_nonneg (by positivity)]; omega) (by omega)
    rw [zpow_neg, zpow_natCast, pow_add] at h
    simpa [div_eq_mul_inv, mul_assoc, mul_comm, mul_left_comm] using h
  have h3 : roundNE ((N : ℚ) / 2 ^ i / 2 ^ j * 10000000) = (N : ℚ) / 2 ^ i / 2 ^ j * 10000000 := by
    obtain ⟨n, hn⟩ : ∃ n : ℕ, n + (i + j) = 7 := ⟨7 - (i + j), by omega⟩
    have h := roundNE_dyadic ((N : ℤ) * 78125) (n : ℤ)
      (by rw [abs_of_nonneg (by positivity)]; omega) (by omega)
    have e : ((((N : ℤ) * 78125 : ℤ) : ℚ)) * (2 : ℚ) ^ (n : ℤ) =
        (N : ℚ) / 2 ^ i / 2 ^ j * 10000000 := by
      have h7 : (10000000 : ℚ) = 78125 * (2 ^ n * (2 ^ i * 2 ^ j)) := by
        rw [← pow_add, ← pow_add, hn]
        norm_num
      rw [h7, zpow_natCast]
      push_cast
      field_simp
      ring
    rw [e] at h
    exact h
  rw [h1, h2, h3]

/-- For a divisor product of at most 14 with an even first divisor, one of the two
divisions is exact, so the second-stage value carries at most one rounding. -/
theorem stage2_small (N : ℕ) (B R : ℤ) (hN1 : 1 ≤ N) (hN : N < 2 ^ 32) (hB2 : 2 ∣ B)
    (hB0 : 0 < B) (hR0 : 0 < R) (hP : B * R ≤ 14) :
    (1 - 1 / 2 ^ 53) * ((N : ℚ) / (B : ℚ) / (R : ℚ)) ≤
      roundNE (roundNE ((N : ℚ) / (B : ℚ)) / (R : ℚ)) ∧
    roundNE (roundNE ((N : ℚ) / (B : ℚ)) / (R : ℚ)) ≤
      (1 + 1 / 2 ^ 53) * ((N : ℚ) / (B : ℚ) / (R : ℚ)) := by
  have hBle : B ≤ 14 := by nlinarith
  have hRle : R ≤ 14 := by nlinarith
  have hR1q : (1 : ℚ) ≤ (R : ℚ) := by exact_mod_cast hR0
  have hRq : (R : ℚ) ≤ 2 ^ 31 := by
    have : (R : ℚ) ≤ 14 := by exact_mod_cast hRle
    linarith
  have hNq : (1 : ℚ) ≤ (N : ℚ) := by exact_mod_cast hN1
  have num : ∀ i : ℕ, i ≤ 31 → (B : ℚ) = 2 ^ i →
      (1 - 1 / 2 ^ 53) * ((N : ℚ) / (B : ℚ) / (R : ℚ)) ≤
        roundNE (roundNE ((N : ℚ) / (B : ℚ)) / (R : ℚ)) ∧
      roundNE (roundNE ((N : ℚ) / (B : ℚ)) / (R : ℚ)) ≤
        (1 + 1 / 2 ^ 53) * ((N : ℚ) / (B : ℚ) / (R : ℚ)) := by
    intro i hi hBi
    rw [hBi]
    exact stage2_pow2_num N i (R : ℚ) hN1 hN hi hR1q hRq
  have den : ∀ j : ℕ, j ≤ 20 → (R : ℚ) = 2 ^ j →
      (1 - 1 / 2 ^ 53) * ((N : ℚ) / (B : ℚ) / (R : ℚ)) ≤
        roundNE (roundNE ((N : ℚ) / (B : ℚ)) / (R : ℚ)) ∧
      roundNE (roundNE ((N : ℚ) / (B : ℚ)) / (R : ℚ)) ≤
        (1 + 1 / 2 ^ 53) * ((N : ℚ) / (B : ℚ) / (R : ℚ)) := by
    intro j hj hRj
    rw [hRj]
    have hB1q : (1 : ℚ) ≤ (B : ℚ) := by exact_mod_cast hB0
    have hBq : (B : ℚ) ≤ 2 ^ 31 := by
      have : (B : ℚ) ≤ 14 := by exact_mod_cast hBle
      linarith
    exact stage2_pow2_den (N : ℚ) (B : ℚ) j hNq hB1q hBq hj
  have hcases : B = 2 ∨ B = 4 ∨ B = 8 ∨ R = 1 ∨ R = 2 := by
    have hB' : B = 2 ∨ B = 4 ∨ B = 6 ∨ B = 8 ∨ B = 10 ∨ B = 12 ∨ B = 14 := by omega
    rcases hB' with h | h | h | h | h | h | h <;> subst h <;> omega
  rcases hcases with h | h | h | h | h
  · exact num 1 (by norm_num) (by rw [h]; norm_num)
  · exact num 2 (by norm_num) (by rw [h]; norm_num)
  · exact num 3 (by norm_num) (by rw [h]; norm_num)
  · exact den 0 (by norm_num) (by rw [h]; norm_num)
  · exact den 1 (by norm_num) (by rw [h]; norm_num)

/-- The floor of the three-times rounded quotient is within one of the exact integer
quotient, for every 32-bit byte count, every even positive `int32_t` bytes-per-sample and
every positive `int32_t` sample rate. -/
theorem duration_floor_near (N : ℕ) (B R : ℤ) (hN : N < 2 ^ 32) (hB2 : 2 ∣ B) (hB0 : 0 < B)
    (hB : B < 2 ^ 31) (hR0 : 0 < R) (hR : R < 2 ^ 31) :
    (N : ℤ) * 10 ^ 7 / (B * R) - 1 ≤
      ⌊roundNE (roundNE (roundNE ((N : ℚ) / (B : ℚ)) / (R : ℚ)) * 10000000)⌋ ∧
    ⌊roundNE (roundNE (roundNE ((N : ℚ) / (B : ℚ)) / (R : ℚ)) * 10000000)⌋ ≤
      (N : ℤ) * 10 ^ 7 / (B * R) + 1 := by
  rcases Nat.eq_zero_or_pos N with h0 | hpos
  · subst h0
    simp [roundNE_of_scaled_int 0 0 (by simp)]
  have hD : 0 < B * R := by positivity
  have hBq : (0 : ℚ) < (B : ℚ) := by exact_mod_cast hB0
  have hRq : (0 : ℚ) < (R : ℚ) := by exact_mod_cast hR0
  have hDq : (0 : ℚ) < (B : ℚ) * (R : ℚ) := mul_pos hBq hRq
  have hxform : (N : ℚ) * 10000000 / ((B : ℚ) * (R : ℚ)) = (N : ℚ) / (B : ℚ) / (R : ℚ) * 10000000 := by
    field_simp
  have hk1 : (((N : ℤ) * 10 ^ 7 / (B * R) : ℤ) : ℚ) ≤ (N : ℚ) / (B : ℚ) / (R : ℚ) * 10000000 := by
    rw [← hxform, le_div_iff₀ hDq]
    have := Int.ediv_mul_le ((N : ℤ) * 10 ^ 7) (ne_of_gt hD)
    have : ((((N : ℤ) * 10 ^ 7 / (B * R)) * (B * R) : ℤ) : ℚ) ≤ (((N : ℤ) * 10 ^ 7 : ℤ) : ℚ) := by
      exact_mod_cast this
    push_cast at this
    linarith
  have hk2 : (N : ℚ) / (B : ℚ) / (R : ℚ) * 10000000 <
      (((N : ℤ) * 10 ^ 7 / (B * R) : ℤ) : ℚ) + 1 := by
    rw [← hxform, div_lt_iff₀ hDq]
    have := Int.lt_ediv_add_one_mul_self ((N : ℤ) * 10 ^ 7) hD
    have : (((N : ℤ) * 10 ^ 7 : ℤ) : ℚ) <
        (((((N : ℤ) * 10 ^ 7 / (B * R)) + 1) * (B * R) : ℤ) : ℚ) := by
      exact_mod_cast this
    push_cast at this
    linarith
  have hN1 : (1 : ℚ) ≤ (N : ℚ) := by exact_mod_cast hpos
  have hN2 : (N : ℚ) ≤ 2 ^ 32 := by exact_mod_cast (le_of_lt hN)
  have hB1 : (1 : ℚ) ≤ (B : ℚ) := by exact_mod_cast hB0
  have hB2' : (B : ℚ) ≤ 2 ^ 31 := by exact_mod_cast (le_of_lt hB)
  have hR1 : (1 : ℚ) ≤ (R : ℚ) := by exact_mod_cast hR0
  have hR2 : (R : ℚ) ≤ 2 ^ 31 := by exact_mod_cast (le_of_lt hR)
  have hNz : (N : ℤ) < 2 ^ 32 := by exact_mod_cast hN
  -- the exact value in terms of the integer product
  have hxle : ∀ T : ℤ, (N : ℤ) * 10 ^ 7 ≤ T * (B * R) →
      (N : ℚ) / (B : ℚ) / (R : ℚ) * 10000000 ≤ (T : ℚ) := by
    intro T hT
    rw [← hxform, div_le_iff₀ hDq]
    have : (((N : ℤ) * 10 ^ 7 : ℤ) : ℚ) ≤ ((T * (B * R) : ℤ) : ℚ) := by exact_mod_cast hT
    push_cast at this
    linarith
  have hxgt : ∀ T : ℤ, ¬ (N : ℤ) * 10 ^ 7 ≤ T * (B * R) →
      (T : ℚ) < (N : ℚ) / (B : ℚ) / (R : ℚ) * 10000000 := by
    intro T hT
    rw [← hxform, lt_div_iff₀ hDq]
    have hT' : T * (B * R) < (N : ℤ) * 10 ^ 7 := lt_of_not_le hT
    have : ((T * (B * R) : ℤ) : ℚ) < (((N : ℤ) * 10 ^ 7 : ℤ) : ℚ) := by exact_mod_cast hT'
    push_cast at this
    linarith
  generalize (N : ℤ) * 10 ^ 7 / (B * R) = k at hk1 hk2 ⊢
  by_cases h3 : (N : ℤ) * 10 ^ 7 ≤ 3000000000000000 * (B * R)
  · -- three roundings
    obtain ⟨-, -, -, -, -, -, lo, hi⟩ := duration_chain _ _ _ hN1 hN2 hB1 hB2' hR1 hR2
    rw [hxform] at lo hi
    have hx := hxle _ h3
    push_cast at hx
    apply floor_near_of_abs _ _ _ hk1 hk2
    · have : ((1 + 1 / 2 ^ 53) ^ 3 - 1) * ((N : ℚ) / (B : ℚ) / (R : ℚ) * 10000000) ≤
          ((1 + 1 / 2 ^ 53) ^ 3 - 1) * (3000000000000000 : ℚ) :=
        mul_le_mul_of_nonneg_left hx (by norm_num)
      have h' : ((1 + 1 / 2 ^ 53) ^ 3 - 1) * (3000000000000000 : ℚ) < 1 := by norm_num
      linarith
    · have : (1 - (1 - 1 / 2 ^ 53) ^ 3) * ((N : ℚ) / (B : ℚ) / (R : ℚ) * 10000000) ≤
          (1 - (1 - 1 / 2 ^ 53) ^ 3) * (3000000000000000 : ℚ) :=
        mul_le_mul_of_nonneg_left hx (by norm_num)
      have h' : (1 - (1 - 1 / 2 ^ 53) ^ 3) * (3000000000000000 : ℚ) < 1 := by norm_num
      linarith
  · -- the divisor product is at most 14
    have hP : B * R ≤ 14 := by omega
    have bb := stage2_small N B R hpos hN hB2 hB0 hR0 hP
    have hy : (1 : ℚ) / 2 ^ 62 ≤ (N : ℚ) / (B : ℚ) / (R : ℚ) := by
      rw [div_div, div_le_div_iff₀ (by positivity) hDq]
      have : (B : ℚ) * (R : ℚ) ≤ 2 ^ 31 * 2 ^ 31 :=
        mul_le_mul hB2' hR2 (le_of_lt hRq) (by positivity)
      nlinarith
    by_cases h2 : (N : ℤ) * 10 ^ 7 ≤ 4500000000000000 * (B * R)
    · have hx := hxle _ h2
      push_cast at hx
      exact floor_near_two_rounds _ _ k hy bb.1 bb.2 hx hk1 hk2
    · have hx1 := hxgt _ h2
      push_cast at hx1
      have hP9 : B * R ≤ 9 := by omega
      have hBle : B ≤ 9 := by nlinarith
      have hfloor : ∀ c : ℚ, c = (N : ℚ) / (B : ℚ) / (R : ℚ) * 10000000 →
          k - 1 ≤ ⌊c⌋ ∧ ⌊c⌋ ≤ k + 1 := by
        intro c hc
        have : ⌊c⌋ = k := by
          rw [Int.floor_eq_iff, hc]
          exact ⟨hk1, hk2⟩
        omega
      have exact : ∀ i j : ℕ, i + j ≤ 7 → (B : ℚ) = 2 ^ i → (R : ℚ) = 2 ^ j →
          k - 1 ≤ ⌊roundNE (roundNE (roundNE ((N : ℚ) / (B : ℚ)) / (R : ℚ)) * 10000000)⌋ ∧
          ⌊roundNE (roundNE (roundNE ((N : ℚ) / (B : ℚ)) / (R : ℚ)) * 10000000)⌋ ≤ k + 1 := by
        intro i j hij hBi hRj
        apply hfloor
        rw [hBi, hRj]
        exact chain_exact N i j hN hij
      have thirds : B * R = 6 →
          k - 1 ≤ ⌊roundNE (roundNE (roundNE ((N : ℚ) / (B : ℚ)) / (R : ℚ)) * 10000000)⌋ ∧
          ⌊roundNE (roundNE (roundNE ((N : ℚ) / (B : ℚ)) / (R : ℚ)) * 10000000)⌋ ≤ k + 1 := by
        intro h6
        have h6q : (B : ℚ) * (R : ℚ) = 6 := by exact_mod_cast h6
        have hx2 : (N : ℚ) / (B : ℚ) / (R : ℚ) * 10000000 ≤ 7200000000000000 := by
          have := hxle 7200000000000000 (by rw [h6]; omega)
          push_cast at this
          exact this
        have hz : 3 * ((N : ℚ) / (B : ℚ) / (R : ℚ) * 10000000) = (((N : ℤ) * 5000000 : ℤ) : ℚ) := by
          rw [div_div, h6q]
          push_cast
          ring
        exact floor_near_thirds _ _ k _ bb.1 bb.2 hx1 hx2 hz hk1 hk2
      have hB' : B = 2 ∨ B = 4 ∨ B = 6 ∨ B = 8 := by omega
      rcases hB' with h | h | h | h <;> subst h
      · have hR' : R = 1 ∨ R = 2 ∨ R = 3 ∨ R = 4 := by omega
        rcases hR' with h | h | h | h <;> subst h
        · exact exact 1 0 (by norm_num) (by norm_num) (by norm_num)
        · exact exact 1 1 (by norm_num) (by norm_num) (by norm_num)
        · exact thirds (by norm_num)
        · exact exact 1 2 (by norm_num) (by norm_num) (by norm_num)
      · have hR' : R = 1 ∨ R = 2 := by omega
        rcases hR' with h | h <;> subst h
        · exact exact 2 0 (by norm_num) (by norm_num) (by norm_num)
        · exact exact 2 1 (by norm_num) (by norm_num) (by norm_num)
      · have hR' : R = 1 := by omega
        subst hR'
        exact thirds (by norm_num)
      · have hR' : R = 1 := by omega
        subst hR'
        exact exact 3 0 (by norm_num) (by norm_num) (by norm_num)

/-! ## Auxiliary facts on the embedding -/

theorem append_ne_empty (a b : String) (ha : 0 < a.length) : a ++ b ≠ "" := by
  intro h
  have := congrArg String.length h
  simp [String.length_append] at this
  omega

theorem wrapU32_of_nonneg_lt (x : ℤ) (h0 : 0 ≤ x) (h1 : x < 2 ^ 32) : (wrapU32 x : ℤ) = x := by
  unfold wrapU32
  rw [Int.emod_eq_of_lt h0 h1]
  exact Int.toNat_of_nonneg h0

theorem wrapU32_natCast (n : ℕ) : wrapU32 (n : ℤ) = n % 2 ^ 32 := by
  unfold wrapU32
  omega

theorem wrapI32_of_nonneg_lt (x : ℤ) (h0 : 0 ≤ x) (h1 : x < 2 ^ 31) : wrapI32 x = x := by
  unfold wrapI32
  omega

theorem truncToInt_of_nonneg (x : ℚ) (h : 0 ≤ x) : truncToInt x = ⌊x⌋ := by
  unfold truncToInt
  rw [if_pos h]

theorem F64_round_of_lt (q : ℚ) (h0 : 0 ≤ roundNE q) (h : roundNE q < 2 ^ 60) :
    F64.round q = some (roundNE q) := by
  unfold F64.round
  rw [if_pos]
  rw [abs_of_nonneg h0]
  exact lt_trans h (by norm_num)

theorem F64_toInt64_of_lt (q : ℚ) (h0 : 0 ≤ q) (h : q < 2 ^ 60) :
    F64.toInt64 (some q) = some ⌊q⌋ := by
  unfold F64.toInt64
  simp only [truncToInt_of_nonneg q h0]
  rw [if_pos]
  constructor
  · have : (0 : ℤ) ≤ ⌊q⌋ := Int.floor_nonneg.mpr h0
    omega
  · rw [Int.floor_lt]
    push_cast
    exact lt_trans h (by norm_num)

theorem roundNE_zero : roundNE 0 = 0 := roundNE_of_scaled_int 0 0 (by simp)

/-- On well-formed 32-bit operands the duration is defined, and it is the floor of the
three-times rounded quotient. -/
theorem sampleDuration_eq_floor (enc : AudioEncoder) (data_size : ℕ)
    (hrate : 0 < enc.sampleRate) (hrate' : enc.sampleRate < 2 ^ 31)
    (hbps : 0 < enc.channels * (if enc.inputIsFloat ≠ 0 then 4 else 2))
    (hbps' : enc.channels * (if enc.inputIsFloat ≠ 0 then 4 else 2) < 2 ^ 31)
    (hsize : data_size < 2 ^ 32) :
    sampleDuration enc data_size =
      some ⌊roundNE (roundNE (roundNE ((data_size : ℚ) /
        ((enc.channels * (if enc.inputIsFloat ≠ 0 then 4 else 2) : ℤ) : ℚ)) /
          (enc.sampleRate : ℚ)) * 10000000)⌋ := by
  have hB : bytesPerSample enc = enc.channels * (if enc.inputIsFloat ≠ 0 then 4 else 2) :=
    wrapI32_of_nonneg_lt _ (le_of_lt hbps) hbps'
  generalize enc.channels * (if enc.inputIsFloat ≠ 0 then 4 else 2) = B at hB hbps hbps' ⊢
  have e1 : F64.ofInt32 (data_size : ℤ) = (data_size : ℚ) := by
    unfold F64.ofInt32
    rw [roundNE_intCast _ (by rw [abs_of_nonneg (by positivity)]; omega)]
    simp
  have e2 : F64.ofInt32 B = (B : ℚ) := by
    unfold F64.ofInt32
    exact roundNE_intCast _ (by rw [abs_of_pos hbps]; omega)
  have e3 : F64.ofInt32 enc.sampleRate = (enc.sampleRate : ℚ) := by
    unfold F64.ofInt32
    exact roundNE_intCast _ (by rw [abs_of_pos hrate]; omega)
  have hBq : (B : ℚ) ≠ 0 := by exact_mod_cast (ne_of_gt hbps)
  have hRq : (enc.sampleRate : ℚ) ≠ 0 := by exact_mod_cast (ne_of_gt hrate)
  unfold sampleDuration
  simp only [hB, e1, e2, e3, F64.div, if_neg hBq]
  rcases Nat.eq_zero_or_pos data_size with h0 | hpos
  · subst h0
    have z1 : F64.round (((0 : ℕ) : ℚ) / (B : ℚ)) = some 0 := by
      simp [F64.round, roundNE_zero]
    simp only [z1, F64.div, if_neg hRq]
    have z2 : F64.round ((0 : ℚ) / (enc.sampleRate : ℚ)) = some 0 := by
      simp [F64.round, roundNE_zero]
    simp only [z2, F64.mul]
    have z3 : F64.round ((0 : ℚ) * 10000000) = some 0 := by
      simp [F64.round, roundNE_zero]
    simp only [z3]
    simp [F64.toInt64, truncToInt, roundNE_zero]
  · have hN1 : (1 : ℚ) ≤ (data_size : ℚ) := by exact_mod_cast hpos
    have hN2 : (data_size : ℚ) ≤ 2 ^ 32 := by exact_mod_cast (le_of_lt hsize)
    have hB1 : (1 : ℚ) ≤ (B : ℚ) := by exact_mod_cast hbps
    have hB2 : (B : ℚ) ≤ 2 ^ 31 := by exact_mod_cast (le_of_lt hbps')
    have hR1 : (1 : ℚ) ≤ (enc.sampleRate : ℚ) := by exact_mod_cast hrate
    have hR2 : (enc.sampleRate : ℚ) ≤ 2 ^ 31 := by exact_mod_cast (le_of_lt hrate')
    obtain ⟨a0, a1, b0, b1, c0, c1, -, -⟩ := duration_chain _ _ _ hN1 hN2 hB1 hB2 hR1 hR2
    rw [F64_round_of_lt _ (le_of_lt a0) (by linarith)]
    simp only [F64.div, if_neg hRq]
    rw [F64_round_of_lt _ (le_of_lt b0) (by linarith)]
    simp only [F64.mul]
    rw [F64_round_of_lt _ (le_of_lt c0) c1]
    exact F64_toInt64_of_lt _ (le_of_lt c0) c1

theorem FAILED_of_SUCCEEDED (hr : HRESULT) (h : SUCCEEDED hr = true) : FAILED hr = false := by
  simp only [SUCCEEDED, FAILED, decide_eq_true_eq, decide_eq_false_iff_not] at h ⊢
  exact not_lt.mpr h

theorem write_negotiated (env : WriteEnv) (encoder : Option AudioEncoder) (pcm_data : List ℕ)
    (data_size : ℕ) (timestamp_hns : ℤ) :
    (audio_encoder_write_pcm env encoder pcm_data data_size timestamp_hns).2.1.map negotiated =
      encoder.map negotiated := by
  cases encoder with
  | none => rfl
  | some enc =>
    unfold audio_encoder_write_pcm
    simp only []
    split_ifs <;> rfl

theorem write_status (env : WriteEnv) (encoder : Option AudioEncoder) (pcm_data : List ℕ)
    (data_size : ℕ) (timestamp_hns : ℤ) :
    (audio_encoder_write_pcm env encoder pcm_data data_size timestamp_hns).1 = 0 ∨
    (audio_encoder_write_pcm env encoder pcm_data data_size timestamp_hns).1 = -2 ∨
    (audio_encoder_write_pcm env encoder pcm_data data_size timestamp_hns).1 = -4 := by
  cases encoder with
  | none => exact Or.inr (Or.inr rfl)
  | some enc =>
    unfold audio_encoder_write_pcm
    simp only []
    split_ifs <;> simp [AUDIO_ENCODER_SUCCESS, AUDIO_ENCODER_ERROR_WRITE, AUDIO_ENCODER_ERROR_INVALID]

theorem finalize_eq (encoder : Option AudioEncoder) :
    (audio_encoder_finalize encoder).1 = (if isReady encoder then 0 else -4) ∧
    (audio_encoder_finalize encoder).2.1 = encoder ∧
    (audio_encoder_finalize encoder).2.2.filter Call.onCollaborator = [] := by
  cases encoder with
  | none => exact ⟨rfl, rfl, rfl⟩
  | some enc =>
    unfold audio_encoder_finalize isReady
    cases h : enc.initialized <;>
      simp [h, AUDIO_ENCODER_ERROR_INVALID, AUDIO_ENCODER_SUCCESS, Call.onCollaborator]

theorem isReady_eq_of_negotiated {a b : Option AudioEncoder}
    (h : a.map negotiated = b.map negotiated) : isReady a = isReady b := by
  cases a <;> cases b <;> simp [negotiated, isReady] at h ⊢
  exact h.1

theorem step_negotiated (encoder : Option AudioEncoder) (op : Op) :
    (step encoder op).2.1.map negotiated = encoder.map negotiated := by
  cases op with
  | write env pcm_data data_size timestamp_hns => exact write_negotiated _ _ _ _ _
  | finalize => simp [step, (finalize_eq encoder).2.1]

theorem run_negotiated (encoder : Option AudioEncoder) (ops : List Op) :
    (run encoder ops).1.map negotiated = encoder.map negotiated := by
  induction ops generalizing encoder with
  | nil => rfl
  | cons op ops ih =>
    simp only [run]
    rw [ih, step_negotiated]

theorem run_finalize_status (encoder : Option AudioEncoder) (ops : List Op) :
    ∀ p ∈ (run encoder ops).2.1, p.1.isFinalize = true →
      p.2 = (if isReady encoder then 0 else -4) := by
  induction ops generalizing encoder with
  | nil => intro p hp; simp [run] at hp
  | cons op ops ih =>
    intro p hp hfin
    simp only [run, List.mem_cons] at hp
    rcases hp with rfl | hp
    · cases op with
      | write env pcm_data data_size timestamp_hns => simp [Op.isFinalize] at hfin
      | finalize => exact (finalize_eq encoder).1
    · rw [← isReady_eq_of_negotiated (step_negotiated encoder op)]
      exact ih _ p hp hfin

theorem write_not_ready (env : WriteEnv) (encoder : Option AudioEncoder) (pcm_data : List ℕ)
    (data_size : ℕ) (timestamp_hns : ℤ) (h : isReady encoder = false) :
    audio_encoder_write_pcm env encoder pcm_data data_size timestamp_hns = (-4, encoder, []) := by
  cases encoder with
  | none => rfl
  | some enc =>
    simp only [isReady] at h
    simp [audio_encoder_write_pcm, h, AUDIO_ENCODER_ERROR_INVALID]

theorem run_not_ready (encoder : Option AudioEncoder) (ops : List Op)
    (h : isReady encoder = false) :
    (run encoder ops).1 = encoder ∧ (run encoder ops).2.2 = [] ∧
    ∀ p ∈ (run encoder ops).2.1, p.2 = -4 := by
  induction ops with
  | nil => simp [run]
  | cons op ops ih =>
    have hs : step encoder op = (-4, encoder, []) := by
      cases op with
      | write env pcm_data data_size timestamp_hns => exact write_not_ready _ _ _ _ _ h
      | finalize =>
        cases encoder with
        | none => rfl
        | some enc =>
          simp only [isReady] at h
          simp [step, audio_encoder_finalize, h, AUDIO_ENCODER_ERROR_INVALID]
    simp only [run, hs, List.nil_append, List.mem_cons]
    refine ⟨ih.1, ih.2.1, ?_⟩
    rintro p (rfl | hp)
    · rfl
    · exact ih.2.2 p hp

theorem run_skip_finalize (encoder : Option AudioEncoder) (ops : List Op) :
    (run encoder (ops.filter (fun op => !op.isFinalize))).1 = (run encoder ops).1 ∧
    (run encoder (ops.filter (fun op => !op.isFinalize))).2.1 =
      (run encoder ops).2.1.filter (fun p => !p.1.isFinalize) ∧
    (run encoder (ops.filter (fun op => !op.isFinalize))).2.2.filter Call.onCollaborator =
      (run encoder ops).2.2.filter Call.onCollaborator := by
  induction ops generalizing encoder with
  | nil => simp [run]
  | cons op ops ih =>
    cases op with
    | write env pcm_data data_size timestamp_hns =>
      obtain ⟨h1, h2, h3⟩ := ih (step encoder (Op.write env pcm_data data_size timestamp_hns)).2.1
      have e1 : (Op.write env pcm_data data_size timestamp_hns).isFinalize = false := rfl
      simp only [List.filter_cons, e1, Bool.not_false, if_true, run, List.filter_append]
      exact ⟨h1, by rw [h2], by rw [h3]⟩
    | finalize =>
      obtain ⟨h1, h2, h3⟩ := ih encoder
      have hf := finalize_eq encoder
      have e1 : Op.finalize.isFinalize = true := rfl
      simp only [List.filter_cons, e1, Bool.not_true, run, step, List.filter_append,
        hf.2.1, hf.2.2, List.nil_append]
      exact ⟨h1, h2, h3⟩

theorem write_status_ignores_lock (env : WriteEnv) (enc : AudioEncoder) (pcm_data : List ℕ)
    (data_size : ℕ) (timestamp_hns : ℤ) (hinit : enc.initialized = true) :
    (audio_encoder_write_pcm env (some enc) pcm_data data_size timestamp_hns).1 =
      (if FAILED env.hrCreateSample || FAILED env.hrCreateMemoryBuffer ||
          FAILED env.hrWriteSample then AUDIO_ENCODER_ERROR_WRITE else AUDIO_ENCODER_SUCCESS) := by
  simp only [audio_encoder_write_pcm, hinit, Bool.not_true, Bool.false_eq_true, if_false]
  cases FAILED env.hrCreateSample <;> cases FAILED env.hrCreateMemoryBuffer <;>
    cases FAILED env.hrWriteSample <;> simp

theorem write_success_submits_input_bytes (env : WriteEnv) (enc : AudioEncoder)
    (pcm_data : List ℕ) (data_size : ℕ) (timestamp_hns : ℤ) (hinit : enc.initialized = true)
    (hlen : pcm_data.length = data_size) (hlock : SUCCEEDED env.hrLock = true)
    (hok : (audio_encoder_write_pcm env (some enc) pcm_data data_size timestamp_hns).1 =
      AUDIO_ENCODER_SUCCESS) :
    (audio_encoder_write_pcm env (some enc) pcm_data data_size timestamp_hns).2.2.filter
        Call.onSink =
      [Call.SinkWriter_WriteSample enc.sinkWriter enc.streamIndex
        { buffers := [{ maxLength := data_size, bytes := some pcm_data,
                        currentLength := data_size }],
          sampleTime := timestamp_hns, sampleDuration := sampleDuration enc data_size }
        env.hrWriteSample] ∧
    (audio_encoder_write_pcm env (some enc) pcm_data data_size timestamp_hns).2.2.filter
        Call.onResampler = [] ∧
    (audio_encoder_write_pcm env (some enc) pcm_data data_size timestamp_hns).2.1 = some enc := by
  have htake : pcm_data.take data_size = pcm_data := by
    rw [← hlen]; exact List.take_length pcm_data
  revert hok
  simp only [audio_encoder_write_pcm, hinit, Bool.not_true, Bool.false_eq_true, if_false, hlock,
    if_true, htake]
  cases FAILED env.hrCreateSample <;> cases FAILED env.hrCreateMemoryBuffer <;>
    cases FAILED env.hrWriteSample <;>
    simp [Call.onSink, Call.onResampler, AUDIO_ENCODER_ERROR_WRITE, AUDIO_ENCODER_SUCCESS]

/-- On well-formed 32-bit operands an empty write has duration zero. -/
theorem sampleDuration_zero (enc : AudioEncoder)
    (hrate : 0 < enc.sampleRate) (hrate' : enc.sampleRate < 2 ^ 31)
    (hbps : 0 < enc.channels * (if enc.inputIsFloat ≠ 0 then 4 else 2))
    (hbps' : enc.channels * (if enc.inputIsFloat ≠ 0 then 4 else 2) < 2 ^ 31) :
    sampleDuration enc 0 = some 0 := by
  rw [sampleDuration_eq_floor enc 0 hrate hrate' hbps hbps' (by norm_num)]
  simp [roundNE_zero]

/-- The rounded duration can also exceed the exact floor: 13 Hz mono 16-bit input,
2365979010 bytes. -/
theorem sampleDuration_above_exact_floor :
    sampleDuration { ready48kStereo with sampleRate := 13, channels := 1 } 2365979010 =
      some ((2365979010 * 10 ^ 7 : ℤ) / (2 * 13) + 1) := by
  decide!

/-! ## The claims -/

/-- Claim C1, counterexample: on a ready 48 kHz stereo 16-bit handle (4 bytes per sample
frame) a write of 516 bytes hands the sink a unit of duration 26874 ticks, whereas
`floor(516 * 10^7 / (4 * 48000))` is 26875. -/
theorem write_duration_not_exact_floor :
    ready48kStereo.initialized = true ∧ 0 < ready48kStereo.sampleRate ∧
    0 < ready48kStereo.channels ∧ bytesPerSample ready48kStereo = 4 ∧
    (audio_encoder_write_pcm writeAllOk (some ready48kStereo) (List.replicate 516 0) 516
        0).2.2.filter Call.onSink =
      [Call.SinkWriter_WriteSample 7 1
        { buffers := [{ maxLength := 516, bytes := some (List.replicate 516 0),
                        currentLength := 516 }],
          sampleTime := 0, sampleDuration := some 26874 } 0] ∧
    (516 * 10 ^ 7 : ℤ) / (bytesPerSample ready48kStereo * ready48kStereo.sampleRate) = 26875 := by
  decide!

/-- Claim C1 (amended): for every initialized handle with `0 < sampleRate` and
`channels > 0` whose `int32_t` fields hold them without overflow (`sampleRate < 2^31`,
`bytesPerSample = channels * (4 if inputIsFloat else 2) < 2^31`) and every byte count
`N < 2^32`, a write whose sample and buffer are created submits exactly one unit to the
sink, and the duration of that unit, the truncated binary64 value of
`((N / bytesPerSample) / sampleRate) * 1e7`, is within one tick of
`floor(N * 10^7 / (bytesPerSample * sampleRate))`. -/
theorem write_duration_within_one_tick (env : WriteEnv) (enc : AudioEncoder) (pcm_data : List ℕ)
    (data_size : ℕ) (timestamp_hns : ℤ)
    (hinit : enc.initialized = true)
    (hrate : 0 < enc.sampleRate) (hrate' : enc.sampleRate < 2 ^ 31)
    (hch : 0 < enc.channels)
    (hbps : enc.channels * (if enc.inputIsFloat ≠ 0 then 4 else 2) < 2 ^ 31)
    (hsize : data_size < 2 ^ 32)
    (hsample : SUCCEEDED env.hrCreateSample = true)
    (hbuffer : SUCCEEDED env.hrCreateMemoryBuffer = true) :
    ∃ (d : ℤ) (buffer : MediaBuffer),
      sampleDuration enc data_size = some d ∧
      (audio_encoder_write_pcm env (some enc) pcm_data data_size timestamp_hns).2.2.filter
          Call.onSink =
        [Call.SinkWriter_WriteSample enc.sinkWriter enc.streamIndex
          { buffers := [buffer], sampleTime := timestamp_hns, sampleDuration := some d }
          env.hrWriteSample] ∧
      (data_size : ℤ) * 10 ^ 7 /
          (enc.channels * (if enc.inputIsFloat ≠ 0 then 4 else 2) * enc.sampleRate) - 1 ≤ d ∧
      d ≤ (data_size : ℤ) * 10 ^ 7 /
          (enc.channels * (if enc.inputIsFloat ≠ 0 then 4 else 2) * enc.sampleRate) + 1 := by
  have hk : (2 : ℤ) ≤ (if enc.inputIsFloat ≠ 0 then 4 else 2) := by split_ifs <;> norm_num
  have hB2 : 2 ≤ enc.channels * (if enc.inputIsFloat ≠ 0 then 4 else 2) := by nlinarith
  have hBeven : (2 : ℤ) ∣ enc.channels * (if enc.inputIsFloat ≠ 0 then 4 else 2) := by
    split_ifs
    · exact Dvd.dvd.mul_left (by norm_num) _
    · exact Dvd.dvd.mul_left (by norm_num) _
  have hdur := sampleDuration_eq_floor enc data_size hrate hrate' (by omega) hbps hsize
  have hnear := duration_floor_near data_size _ enc.sampleRate hsize hBeven (by omega) hbps
    hrate hrate'
  have hs : FAILED env.hrCreateSample = false := FAILED_of_SUCCEEDED _ hsample
  have hb : FAILED env.hrCreateMemoryBuffer = false := FAILED_of_SUCCEEDED _ hbuffer
  refine ⟨_, (if SUCCEEDED env.hrLock then
        { maxLength := data_size, bytes := some (pcm_data.take data_size),
          currentLength := data_size }
      else { maxLength := data_size, bytes := none, currentLength := 0 }), hdur, ?_, hnear.1,
    hnear.2⟩
  simp only [audio_encoder_write_pcm, hinit, hs, hb, hdur, Bool.not_true, Bool.false_eq_true,
    if_false]
  by_cases hw : FAILED env.hrWriteSample = true <;> simp [hw, Call.onSink]

/-- Claim C1, witness: the amended statement at 48 kHz stereo 16-bit and 516 bytes. -/
theorem write_duration_within_one_tick_witness :
    ready48kStereo.initialized = true ∧ 0 < ready48kStereo.sampleRate ∧
    ready48kStereo.sampleRate < 2 ^ 31 ∧ 0 < ready48kStereo.channels ∧
    ready48kStereo.channels * (if ready48kStereo.inputIsFloat ≠ 0 then 4 else 2) < 2 ^ 31 ∧
    516 < 2 ^ 32 ∧
    SUCCEEDED writeAllOk.hrCreateSample = true ∧
    SUCCEEDED writeAllOk.hrCreateMemoryBuffer = true ∧
    ∃ (d : ℤ) (buffer : MediaBuffer),
      sampleDuration ready48kStereo 516 = some d ∧
      (audio_encoder_write_pcm writeAllOk (some ready48kStereo) (List.replicate 516 0) 516
          0).2.2.filter Call.onSink =
        [Call.SinkWriter_WriteSample ready48kStereo.sinkWriter ready48kStereo.streamIndex
          { buffers := [buffer], sampleTime := 0, sampleDuration := some d }
          writeAllOk.hrWriteSample] ∧
      ((516 : ℕ) : ℤ) * 10 ^ 7 /
          (ready48kStereo.channels * (if ready48kStereo.inputIsFloat ≠ 0 then 4 else 2) *
            ready48kStereo.sampleRate) - 1 ≤ d ∧
      d ≤ ((516 : ℕ) : ℤ) * 10 ^ 7 /
          (ready48kStereo.channels * (if ready48kStereo.inputIsFloat ≠ 0 then 4 else 2) *
            ready48kStereo.sampleRate) + 1 :=
  ⟨rfl, by decide, by decide, by decide, by decide, by decide, rfl, rfl,
   write_duration_within_one_tick writeAllOk ready48kStereo (List.replicate 516 0) 516 0
    rfl (by decide) (by decide) (by decide) (by decide) (by decide) rfl rfl⟩

/-- Claim C2, counterexample: on the handle created for 48000 Hz, 2 channels, 16-bit input
(4 bytes per sample frame), the duration computed for 192000 bytes is not 1,000,000 ticks. -/
theorem write_192000_bytes_not_tenth_second :
    (audio_encoder_create createAllOk 7 1 48000 2 0).1.initialized = true ∧
    bytesPerSample (audio_encoder_create createAllOk 7 1 48000 2 0).1 = 4 ∧
    sampleDuration (audio_encoder_create createAllOk 7 1 48000 2 0).1 192000 ≠ some 1000000 := by
  decide!

/-- Claim C2 (amended): on the handle created for 48000 Hz, 2 channels, 16-bit input, a
write of 192000 bytes submits a unit of duration 10,000,000 ticks (one second); the
duration 1,000,000 ticks (a tenth of a second) is the one computed for 19200 bytes. -/
theorem write_192000_bytes_is_one_second (pcm_data : List ℕ) (timestamp_hns : ℤ) :
    (audio_encoder_write_pcm writeAllOk (some (audio_encoder_create createAllOk 7 1 48000 2 0).1)
        pcm_data 192000 timestamp_hns).2.2.filter Call.onSink =
      [Call.SinkWriter_WriteSample 7 1
        { buffers := [{ maxLength := 192000, bytes := some (pcm_data.take 192000),
                        currentLength := 192000 }],
          sampleTime := timestamp_hns, sampleDuration := some 10000000 } 0] ∧
    sampleDuration (audio_encoder_create createAllOk 7 1 48000 2 0).1 19200 = some 1000000 := by
  have h : (audio_encoder_create createAllOk 7 1 48000 2 0).1 = ready48kStereo := by decide!
  have hd : sampleDuration ready48kStereo 192000 = some 10000000 := by decide!
  refine ⟨?_, by decide!⟩
  rw [h]
  simp only [audio_encoder_write_pcm, hd]
  rfl

/-- Claim C3, failing input: when every collaborator call succeeds except the third
`MFCreateMediaType` (the one for `sinkInputType`), `audio_encoder_create` returns a handle
with `initialized = true` although no call at all was made on the sink writer. -/
theorem create_initialized_without_sink_declaration :
    (audio_encoder_create createSinkTypeAllocFails 7 1 48000 2 0).1.initialized = true ∧
    (audio_encoder_create createSinkTypeAllocFails 7 1 48000 2 0).2.filter Call.onSink = [] := by
  decide!

/-- Claim C4: for all arguments and all outcomes of the collaborator calls, the handle
returned by `audio_encoder_create` is either initialized with an empty `lastError` (so that
`audio_encoder_get_error` returns the empty string), or not initialized with a non-empty
`lastError`. -/
theorem create_initialized_iff_no_error (env : CreateEnv) (sink_writer stream_index : ℕ)
    (sample_rate channels input_is_float : ℤ) :
    ((audio_encoder_create env sink_writer stream_index sample_rate channels
          input_is_float).1.initialized = true ∧
      (audio_encoder_create env sink_writer stream_index sample_rate channels
          input_is_float).1.lastError = "" ∧
      audio_encoder_get_error (some (audio_encoder_create env sink_writer stream_index
          sample_rate channels input_is_float).1) = "") ∨
    ((audio_encoder_create env sink_writer stream_index sample_rate channels
          input_is_float).1.initialized = false ∧
      (audio_encoder_create env sink_writer stream_index sample_rate channels
          input_is_float).1.lastError ≠ "") := by
  unfold audio_encoder_create audio_encoder_get_error
  simp only []
  split_ifs <;> simp <;> exact append_ne_empty _ _ (by decide)

/-- Claim C5: on a null handle or a handle that is not initialized,
`audio_encoder_write_pcm` returns `AUDIO_ENCODER_ERROR_INVALID` (-4), makes no call at all
(empty call log) and returns the handle with every field unchanged. -/
theorem write_invalid_handle (env : WriteEnv) (encoder : Option AudioEncoder)
    (pcm_data : List ℕ) (data_size : ℕ) (timestamp_hns : ℤ)
    (h : ∀ enc, encoder = some enc → enc.initialized = false) :
    audio_encoder_write_pcm env encoder pcm_data data_size timestamp_hns = (-4, encoder, []) := by
  cases encoder with
  | none => rfl
  | some enc =>
    have := h enc rfl
    simp [audio_encoder_write_pcm, this, AUDIO_ENCODER_ERROR_INVALID]

/-- Claim C5, witness: a write on the handle of a failed create call. -/
theorem write_invalid_handle_witness :
    (∀ enc, some failedHandle = some enc → enc.initialized = false) ∧
    audio_encoder_write_pcm writeAllOk (some failedHandle) [1, 2, 3, 4] 4 0 =
      (-4, some failedHandle, []) :=
  ⟨by intro enc h; cases h; rfl,
   write_invalid_handle writeAllOk (some failedHandle) [1, 2, 3, 4] 4 0
    (by intro enc h; cases h; rfl)⟩

/-- Claim C6, failing input: on a ready handle, when `IMFMediaBuffer::Lock` fails and the
other calls succeed, `audio_encoder_write_pcm` returns `AUDIO_ENCODER_SUCCESS`. -/
theorem write_lock_failure_returns_success :
    FAILED writeLockFails.hrLock = true ∧
    (audio_encoder_write_pcm writeLockFails (some ready48kStereo) [1, 2, 3, 4] 4 0).1 =
      AUDIO_ENCODER_SUCCESS := by
  decide!

/-- Claim C7, failing input: on a ready handle, a write of 4 bytes whose buffer lock fails
returns success while the unit handed to the sink holds a buffer that was never written,
of current length 0 instead of 4. -/
theorem write_lock_failure_submits_unwritten_buffer :
    (audio_encoder_write_pcm writeLockFails (some ready48kStereo) [1, 2, 3, 4] 4 0).1 =
      AUDIO_ENCODER_SUCCESS ∧
    (audio_encoder_write_pcm writeLockFails (some ready48kStereo) [1, 2, 3, 4] 4
        0).2.2.filter Call.onSink =
      [Call.SinkWriter_WriteSample 7 1
        { buffers := [{ maxLength := 4, bytes := none, currentLength := 0 }],
          sampleTime := 0, sampleDuration := some 208 } 0] := by
  decide!

/-- Claim C8: every write (whose status is 0, -2 or -4) and every finalize preserves the
initialized flag and the negotiated fields, also along any sequence of operations; finalize
returns the handle unchanged and calls no collaborator (only the debugger output); on a
ready handle every finalize of a sequence returns 0, and dropping the finalize calls from a
sequence changes neither the final handle, nor the statuses of the writes, nor the calls
made on collaborators; on a null or failed handle finalize returns -4 and every operation
of a sequence returns -4. -/
theorem write_finalize_preserve_handle (encoder : Option AudioEncoder) (ops : List Op) :
    (∀ env pcm_data data_size timestamp_hns,
      (audio_encoder_write_pcm env encoder pcm_data data_size timestamp_hns).2.1.map negotiated =
        encoder.map negotiated ∧
      ((audio_encoder_write_pcm env encoder pcm_data data_size timestamp_hns).1 = 0 ∨
       (audio_encoder_write_pcm env encoder pcm_data data_size timestamp_hns).1 = -2 ∨
       (audio_encoder_write_pcm env encoder pcm_data data_size timestamp_hns).1 = -4)) ∧
    (audio_encoder_finalize encoder).2.1 = encoder ∧
    (audio_encoder_finalize encoder).2.2.filter Call.onCollaborator = [] ∧
    (run encoder ops).1.map negotiated = encoder.map negotiated ∧
    (isReady encoder = true →
      ∀ p ∈ (run encoder ops).2.1, p.1.isFinalize = true → p.2 = 0) ∧
    ((run encoder (ops.filter (fun op => !op.isFinalize))).1 = (run encoder ops).1 ∧
     (run encoder (ops.filter (fun op => !op.isFinalize))).2.1 =
        (run encoder ops).2.1.filter (fun p => !p.1.isFinalize) ∧
     (run encoder (ops.filter (fun op => !op.isFinalize))).2.2.filter Call.onCollaborator =
        (run encoder ops).2.2.filter Call.onCollaborator) ∧
    (isReady encoder = false →
      (audio_encoder_finalize encoder).1 = -4 ∧ ∀ p ∈ (run encoder ops).2.1, p.2 = -4) := by
  refine ⟨fun env pcm_data data_size timestamp_hns =>
      ⟨write_negotiated _ _ _ _ _, write_status _ _ _ _ _⟩,
    (finalize_eq encoder).2.1, (finalize_eq encoder).2.2, run_negotiated encoder ops, ?_,
    run_skip_finalize encoder ops, ?_⟩
  · intro h p hp hfin
    simpa [h] using run_finalize_status encoder ops p hp hfin
  · intro h
    refine ⟨?_, (run_not_ready encoder ops h).2.2⟩
    simpa [h] using (finalize_eq encoder).1

/-- Claim C8, witness: finalize and a failing write on ready and failed handles. -/
theorem write_finalize_preserve_handle_witness :
    isReady (some ready48kStereo) = true ∧ isReady (some failedHandle) = false ∧
    (audio_encoder_finalize (some ready48kStereo)).1 = 0 ∧
    (audio_encoder_finalize (some failedHandle)).1 = -4 ∧
    (run (some ready48kStereo)
        [Op.finalize, Op.write writeLockFails [1, 2, 3, 4] 4 0, Op.finalize]).1.map negotiated =
      (some ready48kStereo).map negotiated :=
  ⟨rfl, rfl,
   (write_finalize_preserve_handle (some ready48kStereo) [Op.finalize]).2.2.2.2.1 rfl
      (Op.finalize, (audio_encoder_finalize (some ready48kStereo)).1) (List.mem_cons_self _ _) rfl,
   ((write_finalize_preserve_handle (some failedHandle) []).2.2.2.2.2.2 rfl).1,
   (write_finalize_preserve_handle (some ready48kStereo)
      [Op.finalize, Op.write writeLockFails [1, 2, 3, 4] 4 0, Op.finalize]).2.2.2.1⟩

/-- Claim C9: `audio_encoder_destroy` makes no call on a null handle; on a non-null handle
it makes no call on the sink writer, its calls on the resampler are exactly one
end-of-stream message followed by `Release` when the resampler pointer is non-null and
none at all when it is null, and the scratch sample is released once if it was allocated
and never otherwise. -/
theorem destroy_calls (enc : AudioEncoder) :
    audio_encoder_destroy none = [] ∧
    (audio_encoder_destroy (some enc)).filter Call.onSink = [] ∧
    (audio_encoder_destroy (some enc)).filter Call.onResampler =
      (if enc.resampler then
        [Call.Resampler_ProcessMessage .MFT_MESSAGE_NOTIFY_END_OF_STREAM, Call.Resampler_Release]
      else []) ∧
    (audio_encoder_destroy (some enc)).count Call.ResamplerInputSample_Release =
      (if enc.resamplerInputSample then 1 else 0) := by
  rcases enc with ⟨r, sw, si, ris, le, ini, sr, ch, fl⟩
  cases r <;> cases ris <;> exact ⟨rfl, rfl, rfl, by simp [audio_encoder_destroy]⟩

/-- Claim C10, counterexample: for `sampleRate = 2^30`, two channels and float input the
average byte rate stored in the resampler input descriptor (0) is not the product of the
sample rate and the block alignment (8). -/
theorem inputType_avgBytes_wraps :
    (inputType 1073741824 2 1).avgBytesPerSecond ≠
      1073741824 * (inputType 1073741824 2 1).blockAlignment := by
  decide!

/-- Claim C10 (amended): for `0 < sampleRate < 2^31` and `channels ∈ {1, 2}`, a create call
whose collaborator calls all succeed passes `inputType` and `outputType` to the resampler
and `sinkInputType` to the sink; the input descriptor has 32 bits per sample and block
alignment `channels * 4` for float input, 16 and `channels * 2` otherwise; the output and
sink descriptors are equal, 16-bit integer PCM with block alignment `channels * 2`; all
three carry the rate and channel count of the caller, and their average byte rate is
`(sampleRate * blockAlignment) mod 2^32`, which is the plain product when
`sampleRate < 2^29`. -/
theorem create_descriptors (sink_writer stream_index : ℕ) (sample_rate channels input_is_float : ℤ)
    (hrate : 0 < sample_rate) (hrate' : sample_rate < 2 ^ 31)
    (hch : channels = 1 ∨ channels = 2) :
    (audio_encoder_create createAllOk sink_writer stream_index sample_rate channels
        input_is_float).2.filter (fun c => c.onResampler || c.onSink) =
      [Call.Resampler_SetInputType (inputType sample_rate channels input_is_float) 0,
       Call.Resampler_SetOutputType (outputType sample_rate channels) 0,
       Call.Resampler_ProcessMessage .MFT_MESSAGE_NOTIFY_BEGIN_STREAMING,
       Call.Resampler_ProcessMessage .MFT_MESSAGE_NOTIFY_START_OF_STREAM,
       Call.SinkWriter_SetInputMediaType sink_writer stream_index
         (sinkInputType sample_rate channels) 0] ∧
    (inputType sample_rate channels input_is_float).bitsPerSample =
      (if input_is_float ≠ 0 then 32 else 16) ∧
    ((inputType sample_rate channels input_is_float).blockAlignment : ℤ) =
      channels * (if input_is_float ≠ 0 then 4 else 2) ∧
    outputType sample_rate channels = sinkInputType sample_rate channels ∧
    (outputType sample_rate channels).subtype = .MFAudioFormat_PCM ∧
    (outputType sample_rate channels).bitsPerSample = 16 ∧
    ((outputType sample_rate channels).blockAlignment : ℤ) = channels * 2 ∧
    (inputType sample_rate channels input_is_float).carries sample_rate channels ∧
    (outputType sample_rate channels).carries sample_rate channels ∧
    (sinkInputType sample_rate channels).carries sample_rate channels := by
  have hr32 : (wrapU32 sample_rate : ℤ) = sample_rate :=
    wrapU32_of_nonneg_lt _ (le_of_lt hrate) (by omega)
  have hr32' : wrapU32 sample_rate = sample_rate.toNat := by omega
  refine ⟨?_, ?_, ?_, rfl, rfl, rfl, ?_, ?_, ?_, ?_⟩
  · simp [audio_encoder_create, createAllOk, FAILED, SUCCEEDED, Call.onResampler, Call.onSink]
  · simp [inputType]
  · rcases hch with rfl | rfl <;> by_cases hf : input_is_float = 0 <;>
      simp [inputType, hf, wrapI32, wrapU32]
  · rcases hch with rfl | rfl <;> simp [outputType, wrapI32, wrapU32]
  · rcases hch with rfl | rfl <;> by_cases hf : input_is_float = 0 <;>
      simp [MediaType.carries, inputType, hf, wrapI32, wrapU32_natCast, hr32] <;>
      simp [wrapU32, hr32'] <;> omega
  · rcases hch with rfl | rfl <;>
      simp [MediaType.carries, outputType, wrapI32, wrapU32_natCast, hr32] <;>
      simp [wrapU32, hr32'] <;> omega
  · rcases hch with rfl | rfl <;>
      simp [MediaType.carries, sinkInputType, wrapI32, wrapU32_natCast, hr32] <;>
      simp [wrapU32, hr32'] <;> omega

/-- Claim C10, witness: the descriptors for 44100 Hz mono float input. -/
theorem create_descriptors_witness :
    (0 : ℤ) < 44100 ∧ (44100 : ℤ) < 2 ^ 31 ∧ ((1 : ℤ) = 1 ∨ (1 : ℤ) = 2) ∧
    (inputType 44100 1 1).carries 44100 1 ∧
    (inputType 44100 1 1).avgBytesPerSecond = 176400 :=
  ⟨by decide, by decide, Or.inl rfl,
   (create_descriptors 7 1 44100 1 1 (by decide) (by decide) (Or.inl rfl)).2.2.2.2.2.2.2.1,
   by decide!⟩

end AudioEncoderNative
